import Mathlib

/-!
Verification of the Canvas-MCP layout engine (`src/canvas_mcp/organize.py`,
`src/canvas_mcp/models.py`) against its natural-language specification.

Shallow embedding conventions:
* Python `float` values are modelled as `ℚ` (all inputs are finite; `math.isfinite`
  checks of the source are therefore identically true and noted where they occur).
* Python `dict` is modelled as `PyDict`, an association list with insertion-order
  iteration, first-key lookup, and in-place update — exactly CPython's semantics.
* Python `round` is round-half-to-even (`pyround` below).
* Python's stable `sorted` is modelled by a stable insertion sort (`pySort`).
* In-place mutation of the data model is modelled by explicit state passing.
* Object aliasing (several Python lists holding the same node object) is modelled
  by id-indexed lookups in the current state; theorems that depend on this
  carry a `Nodup` hypothesis on node ids, matching the data model's documented
  global-uniqueness invariant.
-/

set_option maxRecDepth 100000

/-- Round-half-to-even, the semantics of Python's built-in `round` on our
rational model of floats. -/
def pyround (q : ℚ) : ℤ :=
  if q - ⌊q⌋ < 1/2 then ⌊q⌋
  else if 1/2 < q - ⌊q⌋ then ⌊q⌋ + 1
  else if ⌊q⌋ % 2 = 0 then ⌊q⌋ else ⌊q⌋ + 1

/-- A rational that is an integer (`den = 1` would also do, but the
existential form is easier to reason with). -/
def IsIntQ (q : ℚ) : Prop := ∃ n : ℤ, q = (n : ℚ)

instance : DecidablePred IsIntQ := fun q =>
  decidable_of_iff (q.den = 1) (by
    rw [Rat.den_eq_one_iff]
    constructor
    · intro h
      exact ⟨q.num, h.symm⟩
    · rintro ⟨n, rfl⟩
      rw [Rat.intCast_num])

-- ---------------------------------------------------------------------------
-- Python dictionaries: association lists with CPython semantics
-- (insertion-order iteration, update-in-place, append of new keys).
-- ---------------------------------------------------------------------------

/-- A Python `dict`, as a key-value list in insertion order. -/
abbrev PyDict (κ ν : Type) : Type := List (κ × ν)

namespace PyDict

variable {κ ν : Type} [DecidableEq κ]

/-- The empty dict. -/
def empty : PyDict κ ν := []

/-- `d.get k` — `d.get(k)` / `d[k]` lookup (first entry with the key;
dicts built by `set` have unique keys). -/
def get (d : PyDict κ ν) (k : κ) : Option ν :=
  (List.find? (fun p => decide (p.1 = k)) d).map Prod.snd

/-- `d.getD k v` — `d.get(k, v)`. -/
def getD (d : PyDict κ ν) (k : κ) (v : ν) : ν := (d.get k).getD v

/-- `d.set k v` — `d[k] = v`: update in place if the key exists, else append. -/
def set (d : PyDict κ ν) (k : κ) (v : ν) : PyDict κ ν :=
  if d.any (fun p => decide (p.1 = k)) then
    d.map (fun p => if p.1 = k then (k, v) else p)
  else d ++ [(k, v)]

/-- Insertion-order key list. -/
def keys (d : PyDict κ ν) : List κ := d.map Prod.fst

/-- Insertion-order value list. -/
def valuesOf (d : PyDict κ ν) : List ν := d.map Prod.snd

/-- Membership test `k in d`. -/
def contains (d : PyDict κ ν) (k : κ) : Bool := d.any (fun p => decide (p.1 = k))

end PyDict

-- ---------------------------------------------------------------------------
-- Python's stable sort (`sorted(..., key=...)`) as insertion sort.
-- ---------------------------------------------------------------------------

/-- Insert `a` into `l` before the first element `b` with `le a b` —
the insertion step of a stable ascending insertion sort. -/
def insertSorted {α : Type} (le : α → α → Bool) (a : α) : List α → List α
  | [] => [a]
  | b :: rest => if le a b then a :: b :: rest else b :: insertSorted le a rest

/-- Stable ascending sort — the model of Python's `sorted` with a
total-preorder comparison. -/
def pySort {α : Type} (le : α → α → Bool) : List α → List α
  | [] => []
  | a :: rest => insertSorted le a (pySort le rest)

-- ---------------------------------------------------------------------------
-- Data model (`models.py`)
-- ---------------------------------------------------------------------------

/-- Visual styling for a node (`NodeStyle` in `models.py`); never read by the
layout engine but carried for frame-effect claims. -/
structure NodeStyle where
  border_color : String
  fill_color : String
  text_color : String
  label_color : Option String
  icon : String
  corner_radius : ℤ
  border_width : ℤ
deriving DecidableEq

/-- Visual styling for a container (`ContainerStyle` in `models.py`). -/
structure ContainerStyle where
  border_color : Option String
  fill_color : Option String
  label_color : Option String
  alpha : Option ℤ
  corner_radius : Option ℤ
  border_width : Option ℤ
deriving DecidableEq

/-- A node — the atomic unit of the canvas ontology (`CanvasNode`). -/
structure CanvasNode where
  id : String
  type : String
  content : String
  label : Option String
  x : ℚ
  y : ℚ
  width : ℚ
  height : ℚ
  inputs : List String
  outputs : List String
  style : Option NodeStyle
deriving DecidableEq

/-- A machine — a pipeline of connected nodes (`CanvasMachine`). -/
structure CanvasMachine where
  id : String
  label : Option String
  description : Option String
  nodes : List CanvasNode
  style : Option ContainerStyle
deriving DecidableEq

/-- A factory — a functional domain grouping machines (`CanvasFactory`). -/
structure CanvasFactory where
  id : String
  label : Option String
  description : Option String
  machines : List CanvasMachine
  style : Option ContainerStyle
deriving DecidableEq

/-- A network — a system boundary containing factories (`CanvasNetwork`). -/
structure CanvasNetwork where
  id : String
  label : Option String
  description : Option String
  factories : List CanvasFactory
deriving DecidableEq

/-- The root canvas model (`Canvas`). -/
structure Canvas where
  version : String
  title : String
  width : ℤ
  height : ℤ
  background_color : String
  theme : String
  networks : List CanvasNetwork
deriving DecidableEq

/-- `CanvasNode.get_label`: `self.label if self.label else self.id` —
`None` and the empty string are both falsy in Python. -/
def CanvasNode.get_label (n : CanvasNode) : String :=
  match n.label with
  | some s => if s = "" then n.id else s
  | none => n.id

/-- `CanvasMachine.get_label`. -/
def CanvasMachine.get_label (m : CanvasMachine) : String :=
  match m.label with
  | some s => if s = "" then m.id else s
  | none => m.id

/-- `CanvasFactory.get_label`. -/
def CanvasFactory.get_label (f : CanvasFactory) : String :=
  match f.label with
  | some s => if s = "" then f.id else s
  | none => f.id

/-- `CanvasNetwork.get_label`. -/
def CanvasNetwork.get_label (nw : CanvasNetwork) : String :=
  match nw.label with
  | some s => if s = "" then nw.id else s
  | none => nw.id

/-- `Canvas.all_nodes`: flat list of every node, in hierarchy order. -/
def Canvas.all_nodes (c : Canvas) : List CanvasNode :=
  c.networks.flatMap (fun nw =>
    nw.factories.flatMap (fun f =>
      f.machines.flatMap (fun m => m.nodes)))

/-- First-occurrence deduplication (CPython's `list(set(...))` has
unspecified order; every property proved below is order-insensitive,
and concrete inputs used in theorems carry no duplicate edges). -/
def dedupKeepFirstAux {α : Type} [DecidableEq α] : List α → List α → List α
  | [], _ => []
  | a :: rest, seen =>
    if a ∈ seen then dedupKeepFirstAux rest seen
    else a :: dedupKeepFirstAux rest (a :: seen)

/-- First-occurrence deduplication entry point. -/
def dedupKeepFirst {α : Type} [DecidableEq α] (l : List α) : List α :=
  dedupKeepFirstAux l []

/-- `Canvas.all_connections`: every edge `(source_id, target_id)` declared via
`inputs`/`outputs`, deduplicated. -/
def Canvas.all_connections (c : Canvas) : List (String × String) :=
  let collected := c.all_nodes.flatMap (fun n =>
    n.inputs.map (fun i => (i, n.id)) ++ n.outputs.map (fun o => (n.id, o)))
  dedupKeepFirst collected

-- ---------------------------------------------------------------------------
-- Flat placer (`compute_organized_layout`), part 1: level assignment
-- ---------------------------------------------------------------------------

/-- An item to be organized (node or container) — `OrganizeItem`. -/
structure OrganizeItem where
  id : String
  item_type : String
  width : ℚ
  height : ℚ
  x : ℚ
  y : ℚ
  node_ids : List String
deriving DecidableEq

/-- A directed edge between organize items — `OrganizeEdge`. -/
structure OrganizeEdge where
  from_id : String
  to_id : String
deriving DecidableEq

/-- Layout options — `OrganizeOptions`. -/
structure OrganizeOptions where
  orientation : String
  horizontal_spacing : ℚ
  vertical_spacing : ℚ
  start_x : ℚ
  start_y : ℚ
  reference_center_x : ℚ
  reference_center_y : ℚ
  grid_columns : ℕ
deriving DecidableEq

/-- Computed position for an item — `LayoutPosition`. -/
structure LayoutPosition where
  x : ℚ
  y : ℚ
deriving DecidableEq

/-- Bounding box for a container — `ContainerBounds`. -/
structure ContainerBounds where
  x : ℚ
  y : ℚ
  width : ℚ
  height : ℚ
deriving DecidableEq

def NODE_HORIZONTAL_SPACING : ℚ := 90
def NODE_VERTICAL_SPACING : ℚ := 140
def CONTAINER_HORIZONTAL_SPACING : ℚ := 200
def CONTAINER_VERTICAL_SPACING : ℚ := 240
def NETWORK_HORIZONTAL_SPACING : ℚ := 260
def NETWORK_VERTICAL_SPACING : ℚ := 320
def MACHINE_PADDING : ℚ := 55
def FACTORY_PADDING : ℚ := 75
def NETWORK_PADDING : ℚ := 100
def GRID_COLUMNS_NODE : ℕ := 4
def GRID_COLUMNS_CONTAINER : ℕ := 3

/-- Default `OrganizeOptions()`. -/
def defaultOrganizeOptions : OrganizeOptions :=
  ⟨"horizontal", NODE_HORIZONTAL_SPACING, NODE_VERTICAL_SPACING, 0, 0, 0, 0, GRID_COLUMNS_NODE⟩

/-- Python dict comprehension `{k: v for k in ids}` (insertion order,
later duplicates overwrite). -/
def dictInit {ν : Type} (ids : List String) (v : ν) : PyDict String ν :=
  ids.foldl (fun d k => d.set k v) []

/-- One edge of the step-1 fold of `compute_organized_layout`: append the
target to the source's adjacency list and bump the target's indegree, when
both endpoints are known ids. -/
def bgStep (st : PyDict String (List String) × PyDict String ℤ) (e : OrganizeEdge) :
    PyDict String (List String) × PyDict String ℤ :=
  if st.1.contains e.from_id && st.2.contains e.to_id then
    (st.1.set e.from_id ((st.1.getD e.from_id []) ++ [e.to_id]),
     st.2.set e.to_id ((st.2.getD e.to_id 0) + 1))
  else st

/-- Step 1 of `compute_organized_layout`: build adjacency and indegree maps.
Edges with an endpoint id that is not an item id are skipped
(`if edge.from_id in adjacency and edge.to_id in indegree`). -/
def buildGraph (items : List OrganizeItem) (edges : List OrganizeEdge) :
    PyDict String (List String) × PyDict String ℤ :=
  let adjacency : PyDict String (List String) := dictInit (items.map OrganizeItem.id) []
  let indegree : PyDict String ℤ := dictInit (items.map OrganizeItem.id) 0
  edges.foldl bgStep (adjacency, indegree)

/-- The lexicographic `(x, y)` comparison used to seed sources
(`sorted(items, key=lambda it: (it.x, it.y))`). -/
def itemLeXY (a b : OrganizeItem) : Bool :=
  a.x < b.x || (a.x = b.x && a.y ≤ b.y)

/-- The lexicographic `(y, x)` comparison used for unresolved items and for
the grid fallback (`key=lambda it: (it.y, it.x)`). -/
def itemLeYX (a b : OrganizeItem) : Bool :=
  a.y < b.y || (a.y = b.y && a.x ≤ b.x)

/-- State of Kahn's topological sort: levels assigned so far, remaining
indegree counters, and the FIFO work queue. -/
structure KahnState where
  levels : PyDict String ℕ
  indeg : PyDict String ℤ
  queue : List String
deriving DecidableEq

/-- One iteration of `for target in adjacency.get(current, [])` inside the
Kahn loop: bump the target's level to `current_level + 1` if larger,
decrement its indegree, and enqueue it when the indegree reaches zero. -/
def processOneTarget (currentLevel : ℕ) (st : KahnState) (tgt : String) : KahnState :=
  let candidate := currentLevel + 1
  let levels2 :=
    match st.levels.get tgt with
    | none => st.levels.set tgt candidate
    | some existing => if existing < candidate then st.levels.set tgt candidate else st.levels
  let newDegree := st.indeg.getD tgt 0 - 1
  let indeg2 := st.indeg.set tgt newDegree
  let queue2 := if newDegree = 0 then st.queue ++ [tgt] else st.queue
  KahnState.mk levels2 indeg2 queue2

/-- Body of `for target in adjacency.get(current, [])` inside the Kahn loop. -/
def processTargets (currentLevel : ℕ) (targets : List String) (s : KahnState) : KahnState :=
  targets.foldl (processOneTarget currentLevel) s

/-- The `while queue:` loop of Kahn's sort, with explicit fuel.  The fuel
`items.length + edges.length + 1` passed by `kahnPhase` is provably enough
for the queue to drain (`kahnLoop_drains` below). -/
def kahnLoop (adj : PyDict String (List String)) : ℕ → KahnState → KahnState
  | 0, s => s
  | fuel + 1, s =>
    match s.queue with
    | [] => s
    | current :: rest =>
      let currentLevel := s.levels.getD current 0
      let s2 := processTargets currentLevel (adj.getD current []) (KahnState.mk s.levels s.indeg rest)
      kahnLoop adj fuel s2

/-- The Kahn loop instrumented with the list of processed (popped) ids —
a specification ghost whose first component is exactly `kahnLoop`. -/
def kahnLoopG (adj : PyDict String (List String)) :
    ℕ → KahnState × List String → KahnState × List String
  | 0, p => p
  | fuel + 1, p =>
    match p.1.queue with
    | [] => p
    | current :: rest =>
      kahnLoopG adj fuel
        (processTargets (p.1.levels.getD current 0) (adj.getD current [])
          (KahnState.mk p.1.levels p.1.indeg rest), p.2 ++ [current])

/-- Multiplicity-weighted count of edges into `v` recorded in the adjacency
map, summed over the given source ids. -/
def adjInto (adj : PyDict String (List String)) (srcs : List String) (v : String) : ℤ :=
  (srcs.map (fun u => ((adj.getD u []).count v : ℤ))).sum

/-- Loop invariant of the instrumented Kahn loop, relative to the built
adjacency `adj`, the initial indegrees `indeg0`, the item ids `ids` and the
seeded level map `seeds`: processed and queued ids are distinct known ids;
the current indegrees account exactly for the processed sources; processed
and queued ids have indegree 0; every recorded edge out of a processed id
is strictly level-increasing; processed and queued ids are levelled; and
ids of initial indegree 0 keep their seeded level. -/
def KahnInv (adj : PyDict String (List String)) (indeg0 : PyDict String ℤ)
    (ids : List String) (seeds : PyDict String ℕ)
    (p : KahnState × List String) : Prop :=
  (p.2 ++ p.1.queue).Nodup ∧
  (∀ x ∈ p.2 ++ p.1.queue, x ∈ ids) ∧
  (∀ v, p.1.indeg.getD v 0 = indeg0.getD v 0 - adjInto adj p.2 v) ∧
  (∀ v ∈ p.2 ++ p.1.queue, p.1.indeg.getD v 0 = 0) ∧
  (∀ u ∈ p.2, ∀ v ∈ adj.getD u [], ∃ lu lv, p.1.levels.get u = some lu ∧
      p.1.levels.get v = some lv ∧ lu < lv) ∧
  (∀ v ∈ p.2 ++ p.1.queue, (p.1.levels.get v).isSome = true) ∧
  (∀ v, indeg0.getD v 0 = 0 → p.1.levels.get v = seeds.get v)

/-- Seed levels and queue with zero-indegree items
(`for item in sorted_items: if indegree.get(item.id, 0) == 0: ...`). -/
def seedInit (indegree : PyDict String ℤ) (sorted_items : List OrganizeItem) :
    PyDict String ℕ × List String :=
  sorted_items.foldl
    (fun st item =>
      if indegree.getD item.id 0 = 0 then (st.1.set item.id 0, st.2 ++ [item.id]) else st)
    ([], [])

/-- Seed the queue with zero-indegree items in `(x, y)` order and run the
Kahn loop (steps 1–2 of `compute_organized_layout`). -/
def kahnPhase (items : List OrganizeItem) (edges : List OrganizeEdge) : KahnState :=
  let g := buildGraph items edges
  let sorted_items := pySort itemLeXY items
  let init := seedInit g.2 sorted_items
  kahnLoop g.1 (items.length + edges.length + 1) (KahnState.mk init.1 g.2 init.2)

/-- Step 3: items left unlevelled by Kahn's sort (cycle participants). -/
def unresolvedItems (items : List OrganizeItem) (levels : PyDict String ℕ) :
    List OrganizeItem :=
  items.filter (fun it => (levels.get it.id).isNone)

/-- Step 3 continued: assign each unresolved item (in `(y, x)` order)
`max(levels of levelled predecessors) + 1`, or 0 when it has none. -/
def resolveCycles (items : List OrganizeItem) (edges : List OrganizeEdge)
    (levels : PyDict String ℕ) : PyDict String ℕ :=
  let unresolved := pySort itemLeYX (unresolvedItems items levels)
  unresolved.foldl (fun lv item =>
    let incoming := edges.filterMap (fun e =>
      if e.to_id = item.id then lv.get e.from_id else none)
    match incoming.max? with
    | some m => lv.set item.id (m + 1)
    | none => lv.set item.id 0) levels

/-- Comparison for `sorted(set(levels.values()))`. -/
def natLe (a b : ℕ) : Bool := a ≤ b

/-- Step 4 helper: `{lvl: idx for idx, lvl in enumerate(sorted(set(values)))}`. -/
def levelRemap (levels : PyDict String ℕ) : PyDict ℕ ℕ :=
  (pySort natLe levels.valuesOf.dedup).enum.map (fun p => (p.2, p.1))

/-- Step 4: normalize levels — remap the sorted set of used level numbers
to `0, 1, 2, …` (`level_remap.get(lvl, lvl)`). -/
def normalizeLevels (levels : PyDict String ℕ) : PyDict String ℕ :=
  levels.map (fun p => (p.1, (levelRemap levels).getD p.2 p.2))

/-- Steps 1–4 of `compute_organized_layout`: Kahn levels, the cyclic-item
rule, and normalization (`effective_levels` before the grid fallback;
`normalized if normalized else dict(levels)`). -/
def effectiveBeforeFallback (items : List OrganizeItem) (edges : List OrganizeEdge) :
    PyDict String ℕ :=
  let levels := resolveCycles items edges (kahnPhase items edges).levels
  let normalized := normalizeLevels levels
  if normalized.isEmpty then levels else normalized

/-- Steps 1–5 of `compute_organized_layout`: the effective level of every
item, including the disconnected grid fallback (which tests `len(edges)`,
the raw edge list; both orientation branches assign `idx // grid_columns`). -/
def computeEffectiveLevels (items : List OrganizeItem) (edges : List OrganizeEdge)
    (opts : OrganizeOptions) : PyDict String ℕ :=
  if edges.length = 0 ∧ 1 < items.length then
    ((pySort itemLeYX items).enum).foldl (fun eff p =>
      if opts.orientation = "horizontal" then eff.set p.2.id (p.1 / opts.grid_columns)
      else eff.set p.2.id (p.1 / opts.grid_columns)) (effectiveBeforeFallback items edges)
  else effectiveBeforeFallback items edges

-- ---------------------------------------------------------------------------
-- Flat placer, part 2: positioning (step 6 of `compute_organized_layout`)
-- ---------------------------------------------------------------------------

/-- Python `min` over a sequence; the empty case is unreachable at every
call site (guarded by non-emptiness, as in the source). -/
def qminList (l : List ℚ) : ℚ :=
  match l with
  | [] => 0
  | a :: rest => rest.foldl min a

/-- Python `max` over a sequence; the empty case is unreachable at every
call site (guarded by non-emptiness, as in the source). -/
def qmaxList (l : List ℚ) : ℚ :=
  match l with
  | [] => 0
  | a :: rest => rest.foldl max a

/-- `{item.id: item for item in items}`. -/
def buildItemMap (items : List OrganizeItem) : PyDict String OrganizeItem :=
  items.foldl (fun d it => d.set it.id it) []

/-- Step 6 grouping: `grouped[lvl].append(item)` over
`effective_levels.items()` in insertion order. -/
def groupByLevel (item_map : PyDict String OrganizeItem) (effective : PyDict String ℕ) :
    PyDict ℕ (List OrganizeItem) :=
  effective.foldl (fun grouped p =>
    let grouped2 := if grouped.contains p.2 then grouped else grouped.set p.2 []
    match item_map.get p.1 with
    | some item => grouped2.set p.2 ((grouped2.getD p.2 []) ++ [item])
    | none => grouped2) []

/-- One entry of a level's placement list, with target and fallback
cross-axis centers. -/
structure PlEntry where
  item : OrganizeItem
  target_center : ℚ
  fallback_center : ℚ
deriving DecidableEq

/-- The sort key `(target_center, fallback_center, item.id)`. -/
def entryLe (a b : PlEntry) : Bool :=
  a.target_center < b.target_center ||
  (a.target_center = b.target_center &&
    (a.fallback_center < b.fallback_center ||
     (a.fallback_center = b.fallback_center && a.item.id ≤ b.item.id)))

/-- `get_parent_centers`: cross-axis centers of already-placed parents. -/
def getParentCenters (edges : List OrganizeEdge) (item_map : PyDict String OrganizeItem)
    (layout : PyDict String LayoutPosition) (item_id : String) : List ℚ :=
  edges.filterMap (fun e =>
    if e.to_id = item_id then
      match layout.get e.from_id with
      | none => none
      | some parent_pos =>
        match item_map.get e.from_id with
        | none => none
        | some parent_item => some (parent_pos.y + parent_item.height / 2)
    else none)

/-- Build the placement entries of one horizontal level.  The
`math.isfinite(target_center)` fallback of the source is identically
skipped on the rational model. -/
def buildEntries (edges : List OrganizeEdge) (item_map : PyDict String OrganizeItem)
    (layout : PyDict String LayoutPosition) (column_items : List OrganizeItem) :
    List PlEntry :=
  column_items.map (fun item =>
    let parent_centers := getParentCenters edges item_map layout item.id
    let fallback_center := item.y + item.height / 2
    let target_center :=
      if parent_centers.length ≠ 0 then parent_centers.sum / (parent_centers.length : ℚ)
      else fallback_center
    PlEntry.mk item target_center fallback_center)

/-- State of the per-entry placement fold in a horizontal column:
`previous_bottom = none` models the `float("-inf")` sentinel; `placed`
records the placed (item, position) pairs of the column in order. -/
structure HPlaceState where
  layout : PyDict String LayoutPosition
  previous_bottom : Option ℚ
  placed : List (OrganizeItem × LayoutPosition)
deriving DecidableEq

/-- The `desired_top` of one horizontal placement: the entry's target top,
clamped below the previous bottom plus `v_spacing`.  The two
`math.isfinite(desired_top)` fallbacks of the source are identically
skipped on the rational model. -/
def hDesiredTop (v_spacing : ℚ) (previous_bottom : Option ℚ) (entry : PlEntry) : ℚ :=
  match previous_bottom with
  | none => entry.target_center - entry.item.height / 2
  | some pb =>
    if entry.target_center - entry.item.height / 2 < pb + v_spacing then pb + v_spacing
    else entry.target_center - entry.item.height / 2

/-- Place one entry in a horizontal column: clamp the desired top below the
previous bottom plus `v_spacing`, round, and record. -/
def placeEntryH (v_spacing current_x : ℚ) (st : HPlaceState) (entry : PlEntry) : HPlaceState :=
  let final_y : ℚ := (pyround (hDesiredTop v_spacing st.previous_bottom entry) : ℚ)
  let pos : LayoutPosition := LayoutPosition.mk (pyround current_x : ℚ) final_y
  HPlaceState.mk (st.layout.set entry.item.id pos) (some (final_y + entry.item.height))
    (st.placed ++ [(entry.item, pos)])

/-- State of the per-level fold in horizontal orientation; `orders` records
each placed column in placement order (specification ghost output). -/
structure HLevelState where
  layout : PyDict String LayoutPosition
  current_x : ℚ
  orders : List (List (OrganizeItem × LayoutPosition))
deriving DecidableEq

/-- Process one level in horizontal orientation. -/
def placeLevelH (edges : List OrganizeEdge) (item_map : PyDict String OrganizeItem)
    (v_spacing h_spacing : ℚ) (grouped : PyDict ℕ (List OrganizeItem))
    (st : HLevelState) (level : ℕ) : HLevelState :=
  let column_items := grouped.getD level []
  if column_items.isEmpty then st
  else
    let column_width := qmaxList (column_items.map OrganizeItem.width)
    let entries := buildEntries edges item_map st.layout column_items
    let sorted_entries := pySort entryLe entries
    let placedSt := sorted_entries.foldl (placeEntryH v_spacing st.current_x)
      (HPlaceState.mk st.layout none [])
    HLevelState.mk placedSt.layout (st.current_x + column_width + h_spacing)
      (st.orders ++ [placedSt.placed])

/-- The sort key `(it.x, it.id)` of vertical rows. -/
def itemLeXId (a b : OrganizeItem) : Bool :=
  a.x < b.x || (a.x = b.x && a.id ≤ b.id)

/-- State of the per-item fold in a vertical row. -/
structure VRowState where
  layout : PyDict String LayoutPosition
  cursor_x : ℚ
  row_height : ℚ
  placed : List (OrganizeItem × LayoutPosition)
deriving DecidableEq

/-- State of the per-level fold in vertical orientation. -/
structure VLevelState where
  layout : PyDict String LayoutPosition
  current_y : ℚ
  orders : List (List (OrganizeItem × LayoutPosition))
deriving DecidableEq

/-- Place one item of a vertical row: round the cursor, advance it by the
item's width plus `h_spacing`, and track the row height. -/
def placeRowV (h_spacing current_y : ℚ) (acc : VRowState) (item : OrganizeItem) : VRowState :=
  let pos : LayoutPosition :=
    LayoutPosition.mk (pyround acc.cursor_x : ℚ) (pyround current_y : ℚ)
  VRowState.mk (acc.layout.set item.id pos) (acc.cursor_x + item.width + h_spacing)
    (max acc.row_height item.height) (acc.placed ++ [(item, pos)])

/-- Process one level in vertical orientation: pack the row left-to-right
centred on `reference_center_x`. -/
def placeLevelV (h_spacing v_spacing reference_center_x : ℚ)
    (grouped : PyDict ℕ (List OrganizeItem)) (st : VLevelState) (level : ℕ) : VLevelState :=
  let row_items := pySort itemLeXId (grouped.getD level [])
  if row_items.isEmpty then st
  else
    let total_width := (row_items.map OrganizeItem.width).sum +
      ((row_items.length : ℚ) - 1) * h_spacing
    let rowSt := row_items.foldl (placeRowV h_spacing st.current_y)
      (VRowState.mk st.layout (reference_center_x - total_width / 2) 0 [])
    VLevelState.mk rowSt.layout (st.current_y + rowSt.row_height + v_spacing)
      (st.orders ++ [rowSt.placed])

/-- `compute_organized_layout`, together with the per-level placement order
record used by the intra-level spacing theorems (the record lists exactly
the (item, position) pairs inserted into the layout map, level by level). -/
def compute_organized_layoutWithOrders (items : List OrganizeItem)
    (edges : List OrganizeEdge) (options : Option OrganizeOptions) :
    PyDict String LayoutPosition × List (List (OrganizeItem × LayoutPosition)) :=
  if items.isEmpty then ([], [])
  else
    let opts := options.getD defaultOrganizeOptions
    let item_map := buildItemMap items
    let effective := computeEffectiveLevels items edges opts
    let grouped := groupByLevel item_map effective
    let ordered_levels := pySort natLe grouped.keys
    let h_spacing := opts.horizontal_spacing
    let v_spacing := opts.vertical_spacing
    let min_x := qminList (items.map OrganizeItem.x)
    let max_x := qmaxList (items.map (fun it => it.x + it.width))
    let min_y := qminList (items.map OrganizeItem.y)
    let max_y := qmaxList (items.map (fun it => it.y + it.height))
    let default_start_x := if opts.start_x ≠ 0 then opts.start_x else min_x
    let default_start_y := if opts.start_y ≠ 0 then opts.start_y else min_y
    let default_center_x := (min_x + max_x) / 2
    let default_center_y := (min_y + max_y) / 2
    let placedPair :=
      if opts.orientation = "horizontal" then
        -- reference_center_y of the source feeds only the second
        -- `isfinite` fallback, which is identically skipped here
        let _reference_center_y :=
          if opts.reference_center_y ≠ 0 then opts.reference_center_y else default_center_y
        let fin := ordered_levels.foldl (placeLevelH edges item_map v_spacing h_spacing grouped)
          (HLevelState.mk [] default_start_x [])
        (fin.layout, fin.orders)
      else
        let reference_center_x :=
          if opts.reference_center_x ≠ 0 then opts.reference_center_x else default_center_x
        let fin := ordered_levels.foldl (placeLevelV h_spacing v_spacing reference_center_x grouped)
          (VLevelState.mk [] default_start_y [])
        (fin.layout, fin.orders)
    let layout := items.foldl (fun ly it =>
      if (ly.get it.id).isSome then ly
      else ly.set it.id (LayoutPosition.mk (pyround it.x : ℚ) (pyround it.y : ℚ)))
      placedPair.1
    (layout, placedPair.2)

/-- `compute_organized_layout` — the public mapping id → position. -/
def compute_organized_layout (items : List OrganizeItem) (edges : List OrganizeEdge)
    (options : Option OrganizeOptions) : PyDict String LayoutPosition :=
  (compute_organized_layoutWithOrders items edges options).1

-- ---------------------------------------------------------------------------
-- Bounds computation and cross-container edge resolution
-- ---------------------------------------------------------------------------

/-- `compute_bounds_from_nodes`; `node.width or 360` treats a zero width as
missing (Python falsiness), and the `isfinite` skips are identically true
on the rational model, so the `None` return for all-non-finite inputs is
unreachable here. -/
def compute_bounds_from_nodes (nodes : List CanvasNode) : Option ContainerBounds :=
  if nodes.isEmpty then none
  else
    let min_x := qminList (nodes.map CanvasNode.x)
    let min_y := qminList (nodes.map CanvasNode.y)
    let max_x := qmaxList (nodes.map (fun n => n.x + (if n.width = 0 then 360 else n.width)))
    let max_y := qmaxList (nodes.map (fun n => n.y + (if n.height = 0 then 180 else n.height)))
    some (ContainerBounds.mk min_x min_y (max 1 (max_x - min_x)) (max 1 (max_y - min_y)))

/-- `_resolve_edges_for_containers`: map node connections to container
pairs, dropping dangling, self, and duplicate pairs (a falsy — `None` or
empty — container id is dropped, as in the source). -/
def resolveEdgesForContainers (connections : List (String × String))
    (node_to_container : PyDict String String) (container_ids : List String) :
    List OrganizeEdge :=
  (connections.foldl (fun (st : List (String × String) × List OrganizeEdge) conn =>
    match node_to_container.get conn.1, node_to_container.get conn.2 with
    | some sc, some dc =>
      if sc = "" ∨ dc = "" then st
      else if sc = dc then st
      else if ¬(sc ∈ container_ids ∧ dc ∈ container_ids) then st
      else if (sc, dc) ∈ st.1 then st
      else (st.1 ++ [(sc, dc)], st.2 ++ [OrganizeEdge.mk sc dc])
    | _, _ => st) ([], [])).2

-- ---------------------------------------------------------------------------
-- Hierarchy driver (`_organize_machine` / `_organize_factory` /
-- `_organize_network`).  In-place node mutation is modelled by returning the
-- updated container next to the bounds the source returns.
-- ---------------------------------------------------------------------------

/-- `_organize_machine`: lay out the nodes of one machine; returns the
updated machine and its bounds (`None` when empty). -/
def _organize_machine (machine : CanvasMachine) (all_connections : List (String × String))
    (start_x start_y : ℚ) (orientation : String) : CanvasMachine × Option ContainerBounds :=
  if machine.nodes.isEmpty then (machine, none)
  else
    let node_ids := machine.nodes.map CanvasNode.id
    let items := machine.nodes.map (fun node =>
      OrganizeItem.mk node.id "node" node.width node.height node.x node.y [node.id])
    let edges := (all_connections.filter
      (fun c => decide (c.1 ∈ node_ids ∧ c.2 ∈ node_ids))).map
      (fun c => OrganizeEdge.mk c.1 c.2)
    let options := OrganizeOptions.mk orientation NODE_HORIZONTAL_SPACING
      NODE_VERTICAL_SPACING (start_x + MACHINE_PADDING) (start_y + MACHINE_PADDING)
      0 0 GRID_COLUMNS_NODE
    let layout := compute_organized_layout items edges (some options)
    let newNodes := machine.nodes.map (fun node =>
      match layout.get node.id with
      | some pos => { node with x := pos.x, y := pos.y }
      | none => node)
    let machine2 := { machine with nodes := newNodes }
    (machine2, compute_bounds_from_nodes machine2.nodes)

/-- `_organize_factory`: organize each machine bottom-up, then place machines
with container spacing and translate their nodes. -/
def _organize_factory (factory : CanvasFactory) (all_connections : List (String × String))
    (start_x start_y : ℚ) (orientation : String) : CanvasFactory × Option ContainerBounds :=
  if factory.machines.isEmpty then (factory, none)
  else
    let organized := factory.machines.map
      (fun m => _organize_machine m all_connections 0 0 orientation)
    let machines1 := organized.map Prod.fst
    let machine_bounds : PyDict String ContainerBounds :=
      organized.foldl (fun d p =>
        match p.2 with
        | some b => d.set p.1.id b
        | none => d) []
    if machine_bounds.isEmpty then ({ factory with machines := machines1 }, none)
    else
      let node_to_machine : PyDict String String :=
        machines1.foldl (fun d m => m.nodes.foldl (fun d2 n => d2.set n.id m.id) d) []
      let machine_ids := machines1.map CanvasMachine.id
      let container_edges := resolveEdgesForContainers all_connections node_to_machine machine_ids
      let items := machines1.foldl (fun acc m =>
        match machine_bounds.get m.id with
        | none => acc
        | some bounds =>
          acc ++ [OrganizeItem.mk m.id "machine" (bounds.width + MACHINE_PADDING * 2)
            (bounds.height + MACHINE_PADDING * 2 + 40) bounds.x bounds.y
            (m.nodes.map CanvasNode.id)]) []
      if items.isEmpty then ({ factory with machines := machines1 }, none)
      else
        let effective_grid_columns :=
          if container_edges.isEmpty then items.length else GRID_COLUMNS_CONTAINER
        let options := OrganizeOptions.mk orientation CONTAINER_HORIZONTAL_SPACING
          CONTAINER_VERTICAL_SPACING (start_x + FACTORY_PADDING) (start_y + FACTORY_PADDING)
          0 0 effective_grid_columns
        let layout := compute_organized_layout items container_edges (some options)
        let machines2 := machines1.map (fun m =>
          match layout.get m.id, machine_bounds.get m.id with
          | some pos, some bounds =>
            let dx := pos.x + MACHINE_PADDING - bounds.x
            let dy := pos.y + MACHINE_PADDING + 40 - bounds.y
            { m with nodes := m.nodes.map (fun n => { n with x := n.x + dx, y := n.y + dy }) }
          | _, _ => m)
        let all_factory_nodes := machines2.flatMap CanvasMachine.nodes
        ({ factory with machines := machines2 }, compute_bounds_from_nodes all_factory_nodes)

/-- `_organize_network`: organize each factory bottom-up, then place
factories.  When exactly one factory has bounds, the source indexes
`factory_bounds[network.factories[0].id]`, which raises `KeyError` whenever
the first factory is empty and the bounded factory is another one; the
`Except.error` branch mirrors that exception. -/
def _organize_network (network : CanvasNetwork) (all_connections : List (String × String))
    (start_x start_y : ℚ) (orientation : String) :
    Except String (CanvasNetwork × Option ContainerBounds) :=
  if network.factories.isEmpty then Except.ok (network, none)
  else
    let organized := network.factories.map
      (fun f => _organize_factory f all_connections 0 0 orientation)
    let factories1 := organized.map Prod.fst
    let factory_bounds : PyDict String ContainerBounds :=
      organized.foldl (fun d p =>
        match p.2 with
        | some b => d.set p.1.id b
        | none => d) []
    if factory_bounds.isEmpty then Except.ok ({ network with factories := factories1 }, none)
    else if factory_bounds.length = 1 then
      match factories1 with
      | [] => Except.ok ({ network with factories := factories1 }, none)
      | factory0 :: rest =>
        match factory_bounds.get factory0.id with
        | none => Except.error "KeyError: factory_bounds"
        | some bounds =>
          let dx := start_x + NETWORK_PADDING - bounds.x
          let dy := start_y + NETWORK_PADDING - bounds.y
          let factory2 := { factory0 with machines := factory0.machines.map (fun m =>
            { m with nodes := m.nodes.map (fun n => { n with x := n.x + dx, y := n.y + dy }) }) }
          let factories2 := factory2 :: rest
          let all_nodes := factories2.flatMap (fun f => f.machines.flatMap CanvasMachine.nodes)
          Except.ok ({ network with factories := factories2 }, compute_bounds_from_nodes all_nodes)
    else
      let node_to_factory : PyDict String String :=
        factories1.foldl (fun d f => f.machines.foldl (fun d2 m =>
          m.nodes.foldl (fun d3 n => d3.set n.id f.id) d2) d) []
      let factory_ids := factories1.map CanvasFactory.id
      let container_edges := resolveEdgesForContainers all_connections node_to_factory factory_ids
      let items := factories1.foldl (fun acc f =>
        match factory_bounds.get f.id with
        | none => acc
        | some bounds =>
          acc ++ [OrganizeItem.mk f.id "factory" (bounds.width + FACTORY_PADDING * 2)
            (bounds.height + FACTORY_PADDING * 2 + 40) bounds.x bounds.y
            (f.machines.flatMap (fun m => m.nodes.map CanvasNode.id))]) []
      if items.isEmpty then Except.ok ({ network with factories := factories1 }, none)
      else
        let effective_grid_columns :=
          if container_edges.isEmpty then items.length else GRID_COLUMNS_CONTAINER
        let options := OrganizeOptions.mk orientation NETWORK_HORIZONTAL_SPACING
          NETWORK_VERTICAL_SPACING (start_x + NETWORK_PADDING) (start_y + NETWORK_PADDING)
          0 0 effective_grid_columns
        let layout := compute_organized_layout items container_edges (some options)
        let factories2 := factories1.map (fun f =>
          match layout.get f.id, factory_bounds.get f.id with
          | some pos, some bounds =>
            let dx := pos.x + FACTORY_PADDING - bounds.x
            let dy := pos.y + FACTORY_PADDING + 40 - bounds.y
            { f with machines := f.machines.map (fun m =>
              { m with nodes := m.nodes.map (fun n => { n with x := n.x + dx, y := n.y + dy }) }) }
          | _, _ => f)
        let all_nodes := factories2.flatMap (fun f => f.machines.flatMap CanvasMachine.nodes)
        Except.ok ({ network with factories := factories2 }, compute_bounds_from_nodes all_nodes)

-- ---------------------------------------------------------------------------
-- Connector sampler and Avoider (`_sample_bezier_path`, `_avoid_connectors`)
-- ---------------------------------------------------------------------------

def CONNECTOR_CLEARANCE : ℚ := 20
def MAX_NUDGE_ITERATIONS : ℕ := 6
def NODE_BBOX_MARGIN : ℚ := -8
def MAX_NUDGE_DISPLACEMENT : ℚ := 400

/-- A sampled point on a bezier connector path (`_BezierSegment`). -/
structure _BezierSegment where
  x : ℚ
  y : ℚ
deriving DecidableEq

/-- Port anchors and direction chosen by the "horizon" rule of
`_sample_bezier_path` (mirrors `renderer._determine_port`). -/
structure BezierSetup where
  sx : ℚ
  sy : ℚ
  ex : ℚ
  ey : ℚ
  vertical : Bool
deriving DecidableEq

/-- Port selection of `_sample_bezier_path`. -/
def _bezier_ports (src dst : CanvasNode) : BezierSetup :=
  let src_cx := src.x + src.width / 2
  let src_cy := src.y + src.height / 2
  let tgt_cx := dst.x + dst.width / 2
  let tgt_cy := dst.y + dst.height / 2
  let dx := tgt_cx - src_cx
  let dy := tgt_cy - src_cy
  let horizon := src.height * 1.5
  if |dy| > horizon ∧ |dy| > |dx| then
    if dy > 0 then
      BezierSetup.mk (src.x + src.width / 2) (src.y + src.height)
        (dst.x + dst.width / 2) dst.y true
    else
      BezierSetup.mk (src.x + src.width / 2) src.y
        (dst.x + dst.width / 2) (dst.y + dst.height) true
  else
    if dx ≥ 0 then
      BezierSetup.mk (src.x + src.width) (src.y + src.height / 2)
        dst.x (dst.y + dst.height / 2) false
    else
      BezierSetup.mk src.x (src.y + src.height / 2)
        (dst.x + dst.width) (dst.y + dst.height / 2) false

/-- The bezier control points of `_sample_bezier_path`
(`cp1x, cp1y, cp2x, cp2y`). -/
def _bezier_controls (p : BezierSetup) : ℚ × ℚ × ℚ × ℚ :=
  if p.vertical then
    let cp_offset := max (|p.ey - p.sy| * 0.4) 40
    (p.sx, p.sy + (if p.ey > p.sy then cp_offset else -cp_offset),
     p.ex, p.ey - (if p.ey > p.sy then cp_offset else -cp_offset))
  else
    let cp_offset := max (|p.ex - p.sx| * 0.4) 40
    (p.sx + (if p.ex > p.sx then cp_offset else -cp_offset), p.sy,
     p.ex - (if p.ex > p.sx then cp_offset else -cp_offset), p.ey)

/-- The i-th cubic-bezier sample at parameter `t = i / steps`. -/
def _bezier_point_at (p : BezierSetup) (cps : ℚ × ℚ × ℚ × ℚ) (steps i : ℕ) :
    _BezierSegment :=
  let t : ℚ := (i : ℚ) / (steps : ℚ)
  let bx := (1 - t)^3 * p.sx + 3 * (1 - t)^2 * t * cps.1
    + 3 * (1 - t) * t^2 * cps.2.2.1 + t^3 * p.ex
  let byy := (1 - t)^3 * p.sy + 3 * (1 - t)^2 * t * cps.2.1
    + 3 * (1 - t) * t^2 * cps.2.2.2 + t^3 * p.ey
  _BezierSegment.mk bx byy

/-- `_sample_bezier_path`: the `steps + 1` cubic-bezier samples between the
chosen ports. -/
def _sample_bezier_path (src dst : CanvasNode) (steps : ℕ) : List _BezierSegment :=
  let p := _bezier_ports src dst
  let cps := _bezier_controls p
  (List.range (steps + 1)).map (_bezier_point_at p cps steps)

/-- `_node_intersects_path`: does any sampled point fall inside the node's
margin-adjusted rectangle `[x + margin, x + width - margin] ×
[y + margin, y + height - margin]`. -/
def _node_intersects_path (node : CanvasNode) (path : List _BezierSegment)
    (margin : ℚ) : Bool :=
  let x1 := node.x + margin
  let y1 := node.y + margin
  let x2 := node.x + node.width - margin
  let y2 := node.y + node.height - margin
  path.any (fun pt => decide (x1 ≤ pt.x ∧ pt.x ≤ x2 ∧ y1 ≤ pt.y ∧ pt.y ≤ y2))

/-- `_compute_nudge_direction`: +1 to push the node down, −1 to push it up. -/
def _compute_nudge_direction (node : CanvasNode) (path : List _BezierSegment) : ℚ :=
  let node_cy := node.y + node.height / 2
  let inside_ys := (path.filter (fun pt =>
    decide (node.x ≤ pt.x ∧ pt.x ≤ node.x + node.width))).map _BezierSegment.y
  if inside_ys.isEmpty then 1
  else
    let path_avg_y := inside_ys.sum / (inside_ys.length : ℚ)
    if path_avg_y ≤ node_cy then 1 else -1

/-- `_build_node_to_machine_map`. -/
def _build_node_to_machine_map (canvas : Canvas) : PyDict String String :=
  canvas.networks.foldl (fun d nw =>
    nw.factories.foldl (fun d2 f =>
      f.machines.foldl (fun d3 m =>
        m.nodes.foldl (fun d4 n => d4.set n.id m.id) d3) d2) d) []

/-- The `machine_nodes` lookup of `_avoid_connectors`, reduced to node ids
(object aliases are modelled by current-state lookups). -/
def machineNodeIds (canvas : Canvas) : PyDict String (List String) :=
  canvas.networks.foldl (fun d nw =>
    nw.factories.foldl (fun d2 f =>
      f.machines.foldl (fun d3 m => d3.set m.id (m.nodes.map CanvasNode.id)) d2) d) []

/-- Current-state lookup modelling `node_map.get(node_id)` followed by an
aliased attribute read (last id wins, as in a Python dict build). -/
def Canvas.getNodeById (c : Canvas) (node_id : String) : Option CanvasNode :=
  (c.all_nodes.foldl (fun (d : PyDict String CanvasNode) n => d.set n.id n) []).get node_id

/-- Apply a function to every node of the canvas, preserving the container
structure. -/
def Canvas.mapNodes (c : Canvas) (f : CanvasNode → CanvasNode) : Canvas :=
  { c with networks := c.networks.map (fun nw =>
      { nw with factories := nw.factories.map (fun fa =>
          { fa with machines := fa.machines.map (fun m =>
              { m with nodes := m.nodes.map f }) }) }) }

/-- `node.y = value` through an aliased node object, as an id-indexed
update of the canvas state. -/
def updateNodeY (c : Canvas) (node_id : String) (newY : ℚ) : Canvas :=
  c.mapNodes (fun n => if n.id = node_id then { n with y := newY } else n)

/-- State threaded through one Avoider pass: the canvas, the ids nudged in
this round, and the running nudge count. -/
structure AvoidState where
  canvas : Canvas
  nudged : List String
  total : ℕ
deriving DecidableEq

/-- Sibling group-shift step of `_avoid_connectors` (machine cohesion):
shift a sibling by the same amount when it would otherwise be leapfrogged,
unless its own displacement budget would be exceeded. -/
def avoidSiblingStep (original_y : PyDict String ℚ) (node_id : String)
    (direction shift nodeNewY : ℚ) (st : AvoidState) (sib_id : String) : AvoidState :=
  if sib_id = node_id then st
  else if sib_id ∈ st.nudged then st
  else
    match st.canvas.getNodeById sib_id with
    | none => st
    | some sibling =>
      let sib_orig := original_y.getD sibling.id sibling.y
      let sib_displacement := |sibling.y + shift - sib_orig|
      if sib_displacement > MAX_NUDGE_DISPLACEMENT then st
      else if direction > 0 ∧ sibling.y ≥ nodeNewY - shift then
        AvoidState.mk (updateNodeY st.canvas sibling.id (pyround (sibling.y + shift) : ℚ))
          (st.nudged ++ [sibling.id]) st.total
      else if direction < 0 ∧ sibling.y ≤ nodeNewY - shift then
        AvoidState.mk (updateNodeY st.canvas sibling.id (pyround (sibling.y + shift) : ℚ))
          (st.nudged ++ [sibling.id]) st.total
      else st

/-- Apply an accepted nudge: round the node to its new y, record it as
nudged, bump the counter, and run the machine-sibling group shift. -/
def applyNudge (original_y : PyDict String ℚ) (node_to_machine : PyDict String String)
    (machine_nodes : PyDict String (List String)) (node_id : String)
    (direction shift nodeY : ℚ) (st : AvoidState) : AvoidState :=
  let nodeNewY : ℚ := (pyround (nodeY + shift) : ℚ)
  let st1 := AvoidState.mk (updateNodeY st.canvas node_id nodeNewY)
    (st.nudged ++ [node_id]) (st.total + 1)
  match node_to_machine.get node_id with
  | none => st1
  | some machine_id =>
    (machine_nodes.getD machine_id []).foldl
      (avoidSiblingStep original_y node_id direction shift nodeNewY) st1

/-- Raw shift of `_avoid_connectors`: push the node just past the extreme
in-range path y, plus clearance. -/
def nudgeShift0 (clearance : ℚ) (node : CanvasNode) (direction : ℚ)
    (inside_ys : List ℚ) : ℚ :=
  if direction > 0 then qmaxList inside_ys + clearance - node.y
  else (qminList inside_ys - node.height - clearance) - node.y

/-- Displacement clamp of `_avoid_connectors`: when `node.y + shift` would
stray more than `MAX_NUDGE_DISPLACEMENT` from the pass-start y, reduce the
shift so the cap is met exactly, and abandon (`none`) a clamped shift whose
magnitude falls below 5. -/
def clampNudge (orig : ℚ) (node : CanvasNode) (shift0 : ℚ) : Option ℚ :=
  if |node.y + shift0 - orig| > MAX_NUDGE_DISPLACEMENT then
    if |if shift0 > 0 then MAX_NUDGE_DISPLACEMENT - |node.y - orig|
        else -(MAX_NUDGE_DISPLACEMENT - |node.y - orig|)| < 5 then none
    else some (if shift0 > 0 then MAX_NUDGE_DISPLACEMENT - |node.y - orig|
      else -(MAX_NUDGE_DISPLACEMENT - |node.y - orig|))
  else some shift0

/-- Shift decision of `_avoid_connectors` for one intersecting node:
direction choice, raw shift, displacement clamp; `none` models the three
`continue` branches (no in-range points, shift sign disagreement, and a
clamped shift below 5). -/
def computeNudgeShift (clearance orig : ℚ) (node : CanvasNode)
    (path : List _BezierSegment) : Option (ℚ × ℚ) :=
  let direction := _compute_nudge_direction node path
  let inside_ys := (path.filter (fun pt =>
    decide (node.x ≤ pt.x ∧ pt.x ≤ node.x + node.width))).map _BezierSegment.y
  if inside_ys.isEmpty then none
  else
    let shift0 := nudgeShift0 clearance node direction inside_ys
    if (direction > 0 ∧ shift0 ≤ 0) ∨ (¬(direction > 0) ∧ shift0 ≥ 0) then none
    else
      match clampNudge orig node shift0 with
      | none => none
      | some shift => some (direction, shift)

/-- Per-candidate-node step of `_avoid_connectors` for one connection:
intersection test, shift decision, nudge, and sibling group shift. -/
def avoidNodeStep (clearance : ℚ) (original_y : PyDict String ℚ)
    (node_to_machine : PyDict String String) (machine_nodes : PyDict String (List String))
    (src_id dst_id : String) (path : List _BezierSegment)
    (st : AvoidState) (node_id : String) : AvoidState :=
  if node_id = src_id ∨ node_id = dst_id then st
  else if node_id ∈ st.nudged then st
  else
    match st.canvas.getNodeById node_id with
    | none => st
    | some node =>
      if _node_intersects_path node path NODE_BBOX_MARGIN then
        match computeNudgeShift clearance (original_y.getD node.id node.y) node path with
        | none => st
        | some ds =>
          applyNudge original_y node_to_machine machine_nodes node.id ds.1 ds.2 node.y st
      else st

/-- Per-connection step of one Avoider pass. -/
def avoidConnStep (clearance : ℚ) (all_node_ids : List String)
    (original_y : PyDict String ℚ) (node_to_machine : PyDict String String)
    (machine_nodes : PyDict String (List String))
    (st : AvoidState) (conn : String × String) : AvoidState :=
  match st.canvas.getNodeById conn.1, st.canvas.getNodeById conn.2 with
  | some src, some dst =>
    let path := _sample_bezier_path src dst 24
    all_node_ids.foldl
      (avoidNodeStep clearance original_y node_to_machine machine_nodes conn.1 conn.2 path) st
  | _, _ => st

/-- One full pass over the connection list (`nudged_this_round` starts
empty). -/
def avoidPass (clearance : ℚ) (connections : List (String × String))
    (all_node_ids : List String) (original_y : PyDict String ℚ)
    (node_to_machine : PyDict String String) (machine_nodes : PyDict String (List String))
    (canvas : Canvas) (total : ℕ) : AvoidState :=
  connections.foldl (avoidConnStep clearance all_node_ids original_y node_to_machine machine_nodes)
    (AvoidState.mk canvas [] total)

/-- The `for iteration in range(max_iterations)` loop with its early break
when a pass applies no nudge. -/
def avoidLoop (clearance : ℚ) (connections : List (String × String))
    (all_node_ids : List String) (original_y : PyDict String ℚ)
    (node_to_machine : PyDict String String) (machine_nodes : PyDict String (List String)) :
    ℕ → Canvas → ℕ → Canvas × ℕ
  | 0, canvas, total => (canvas, total)
  | fuel + 1, canvas, total =>
    let st := avoidPass clearance connections all_node_ids original_y node_to_machine
      machine_nodes canvas total
    if st.nudged.isEmpty then (st.canvas, st.total)
    else avoidLoop clearance connections all_node_ids original_y node_to_machine
      machine_nodes fuel st.canvas st.total

/-- `_avoid_connectors`: the connector-aware post-pass; returns the updated
canvas and the total number of nudges applied. -/
def _avoid_connectors (canvas : Canvas) (clearance : ℚ) (max_iterations : ℕ) :
    Canvas × ℕ :=
  let all_nodes := canvas.all_nodes
  let connections := canvas.all_connections
  if connections.isEmpty ∨ all_nodes.length < 3 then (canvas, 0)
  else
    let node_to_machine := _build_node_to_machine_map canvas
    let machine_nodes := machineNodeIds canvas
    let original_y : PyDict String ℚ := all_nodes.foldl (fun d n => d.set n.id n.y) []
    let all_node_ids := all_nodes.map CanvasNode.id
    avoidLoop clearance connections all_node_ids original_y node_to_machine machine_nodes
      max_iterations canvas 0

-- ---------------------------------------------------------------------------
-- Public API (`organize_canvas`)
-- ---------------------------------------------------------------------------

/-- `_get_all_network_nodes`. -/
def _get_all_network_nodes (network : CanvasNetwork) : List CanvasNode :=
  network.factories.flatMap (fun f => f.machines.flatMap CanvasMachine.nodes)

def INTER_NETWORK_HORIZONTAL_SPACING : ℚ := 320
def INTER_NETWORK_VERTICAL_SPACING : ℚ := 380

/-- `organize_canvas`: the hierarchical organize pipeline.  `spacing_level`
is accepted but never read by the body, exactly as in the source.  A
`KeyError` escaping `_organize_network` propagates as `Except.error`. -/
def organize_canvas (canvas : Canvas) (spacing_level : String) (orientation : String) :
    Except String Canvas :=
  let all_nodes := canvas.all_nodes
  if all_nodes.isEmpty then Except.ok canvas
  else
    let all_connections := canvas.all_connections
    let start_x : ℚ := 80
    let start_y : ℚ := 100
    let step1 : Except String (List CanvasNetwork × PyDict String ContainerBounds) :=
      canvas.networks.foldl (fun acc network =>
        match acc with
        | Except.error e => Except.error e
        | Except.ok st =>
          match _organize_network network all_connections 0 0 orientation with
          | Except.error e => Except.error e
          | Except.ok res =>
            let network2 := res.1
            let net_nodes := _get_all_network_nodes network2
            let nbounds2 :=
              if net_nodes.isEmpty then st.2
              else
                match compute_bounds_from_nodes net_nodes with
                | some b => st.2.set network2.id b
                | none => st.2
            Except.ok (st.1 ++ [network2], nbounds2))
        (Except.ok ([], []))
    match step1 with
    | Except.error e => Except.error e
    | Except.ok st =>
      let networks1 := st.1
      let network_bounds := st.2
      let canvas1 := { canvas with networks := networks1 }
      if networks1.length ≤ 1 then
        let canvas2 :=
          match networks1 with
          | [] => canvas1
          | net :: rest =>
            let net_nodes := _get_all_network_nodes net
            if net_nodes.isEmpty then canvas1
            else
              match network_bounds.get net.id with
              | none => canvas1
              | some bounds =>
                let dx := start_x - bounds.x
                let dy := start_y - bounds.y
                let net2 := { net with factories := net.factories.map (fun f =>
                  { f with machines := f.machines.map (fun m =>
                    { m with nodes := m.nodes.map (fun n =>
                      { n with x := n.x + dx, y := n.y + dy }) }) }) }
                { canvas1 with networks := net2 :: rest }
        Except.ok (_avoid_connectors canvas2 CONNECTOR_CLEARANCE MAX_NUDGE_ITERATIONS).1
      else
        let node_to_network : PyDict String String :=
          networks1.foldl (fun d nw => nw.factories.foldl (fun d2 f =>
            f.machines.foldl (fun d3 m =>
              m.nodes.foldl (fun d4 n => d4.set n.id nw.id) d3) d2) d) []
        let network_ids := networks1.map CanvasNetwork.id
        let container_edges := resolveEdgesForContainers all_connections node_to_network network_ids
        let items := networks1.foldl (fun acc nw =>
          match network_bounds.get nw.id with
          | none => acc
          | some bounds =>
            acc ++ [OrganizeItem.mk nw.id "network" (bounds.width + NETWORK_PADDING * 2)
              (bounds.height + NETWORK_PADDING * 2) bounds.x bounds.y
              ((_get_all_network_nodes nw).map CanvasNode.id)]) []
        if items.isEmpty then Except.ok canvas1
        else
          let options := OrganizeOptions.mk orientation INTER_NETWORK_HORIZONTAL_SPACING
            INTER_NETWORK_VERTICAL_SPACING start_x start_y 0 0 GRID_COLUMNS_CONTAINER
          let layout := compute_organized_layout items container_edges (some options)
          let networks2 := networks1.map (fun nw =>
            match layout.get nw.id, network_bounds.get nw.id with
            | some pos, some bounds =>
              let dx := pos.x + NETWORK_PADDING - bounds.x
              let dy := pos.y + NETWORK_PADDING - bounds.y
              { nw with factories := nw.factories.map (fun f =>
                { f with machines := f.machines.map (fun m =>
                  { m with nodes := m.nodes.map (fun n =>
                    { n with x := n.x + dx, y := n.y + dy }) }) }) }
            | _, _ => nw)
          let canvas2 := { canvas1 with networks := networks2 }
          Except.ok (_avoid_connectors canvas2 CONNECTOR_CLEARANCE MAX_NUDGE_ITERATIONS).1

/-- Erase every node's y-coordinate (used to state that the Avoider touches
nothing but node y-coordinates). -/
def Canvas.eraseY (c : Canvas) : Canvas :=
  c.mapNodes (fun n => { n with y := 0 })

-- ---------------------------------------------------------------------------
-- Shorthand for the sampler's local `dx`/`dy`, and concrete test inputs
-- ---------------------------------------------------------------------------

/-- Decidable equality for `Except`, for evaluation theorems about
`organize_canvas`. -/
instance {ε α : Type} [DecidableEq ε] [DecidableEq α] : DecidableEq (Except ε α) := fun a b =>
  match a, b with
  | Except.error e1, Except.error e2 => decidable_of_iff (e1 = e2) (by simp)
  | Except.ok a1, Except.ok a2 => decidable_of_iff (a1 = a2) (by simp)
  | Except.error _, Except.ok _ => isFalse (by simp)
  | Except.ok _, Except.error _ => isFalse (by simp)

/-- The center-to-center x-distance `dx` computed by `_sample_bezier_path`. -/
def connector_dx (src dst : CanvasNode) : ℚ :=
  (dst.x + dst.width / 2) - (src.x + src.width / 2)

/-- The center-to-center y-distance `dy` computed by `_sample_bezier_path`. -/
def connector_dy (src dst : CanvasNode) : ℚ :=
  (dst.y + dst.height / 2) - (src.y + src.height / 2)

/-- A plain node with the given geometry and connections. -/
def mkNode (id : String) (x y w h : ℚ) (ins outs : List String) : CanvasNode :=
  CanvasNode.mk id "default" "" none x y w h ins outs none

/-- A canvas whose single network has an empty first factory and a non-empty
second factory — the input on which `_organize_network` raises `KeyError`. -/
def emptyFirstFactoryCanvas : Canvas :=
  Canvas.mk "2.0" "t" 1920 1080 "#11111b" "dark"
    [CanvasNetwork.mk "N1" none none
      [CanvasFactory.mk "F1" none none [] none,
       CanvasFactory.mk "F2" none none
         [CanvasMachine.mk "M1" none none [mkNode "n1" 0 0 360 180 [] []] none] none]]

/-- A 100 × 100 node at the origin, for the intersection-margin test. -/
def grazeNode : CanvasNode := mkNode "B" 0 0 100 100 [] []

/-- Two stacked items for the dangling-edge fallback test. -/
def danglingItems : List OrganizeItem :=
  [OrganizeItem.mk "a" "node" 10 10 0 0 ["a"],
   OrganizeItem.mk "b" "node" 10 10 0 20 ["b"]]

/-- One edge whose target id resolves to no item. -/
def danglingEdges : List OrganizeEdge := [OrganizeEdge.mk "a" "zzz"]

/-- Options with one grid column, so the grid fallback (were it applied)
would separate the two items into levels 0 and 1. -/
def oneColumnOpts : OrganizeOptions := OrganizeOptions.mk "horizontal" 90 140 0 0 0 0 1

/-- Two items joined into a 2-cycle. -/
def cycleItems : List OrganizeItem :=
  [OrganizeItem.mk "a" "node" 10 10 0 0 ["a"],
   OrganizeItem.mk "b" "node" 10 10 0 20 ["b"]]

/-- The 2-cycle `a → b → a`. -/
def cycleEdges : List OrganizeEdge := [OrganizeEdge.mk "a" "b", OrganizeEdge.mk "b" "a"]

/-- A canvas for the displacement-cap test: a long vertical connector
`S → D` crosses the bystander `B`, whose starting y is the half-integer
11.5; the first (clamped) nudge bankers-rounds 411.5 up to 412. -/
def halfIntegerCanvas : Canvas :=
  Canvas.mk "2.0" "t" 1920 1080 "#11111b" "dark"
    [CanvasNetwork.mk "N1" none none
      [CanvasFactory.mk "F1" none none
        [CanvasMachine.mk "M1" none none [mkNode "S" 0 (-2000) 360 180 [] ["D"]] none,
         CanvasMachine.mk "M2" none none [mkNode "D" 0 500 360 180 [] []] none,
         CanvasMachine.mk "M3" none none [mkNode "B" (-100) (23/2) 360 1000 [] []] none]
        none]]

/-- Concrete source node for the sampler witness. -/
def sampleSrcNode : CanvasNode := mkNode "s" 0 0 100 100 [] []

/-- Concrete target node for the sampler witness (vertical ports apply:
dy = 400 > 150 = 1.5 · 100 and 400 > |dx| = 10). -/
def sampleDstNode : CanvasNode := mkNode "t" 10 400 100 100 [] []

/-- Relative to the recorded pass-start positions: every node of the canvas
has an integer recorded original y and currently sits within the
displacement budget of it. -/
def YWithin (origd : PyDict String ℚ) (c : Canvas) : Prop :=
  ∀ n ∈ c.all_nodes, ∃ o : ℚ, origd.get n.id = some o ∧ IsIntQ o ∧
    |n.y - o| ≤ MAX_NUDGE_DISPLACEMENT

/-- A copy of the displacement-cap canvas whose bystander starts at the
integer y = 11 instead of 11.5. -/
def integerStartCanvas : Canvas :=
  Canvas.mk "2.0" "t" 1920 1080 "#11111b" "dark"
    [CanvasNetwork.mk "N1" none none
      [CanvasFactory.mk "F1" none none
        [CanvasMachine.mk "M1" none none [mkNode "S" 0 (-2000) 360 180 [] ["D"]] none,
         CanvasMachine.mk "M2" none none [mkNode "D" 0 500 360 180 [] []] none,
         CanvasMachine.mk "M3" none none [mkNode "B" (-100) 11 360 1000 [] []] none]
        none]]

/-- Consecutive-pair vertical separation of one placed column: every next
item's top clears the previous item's bottom by at least `gap`. -/
def ConsecGapY (gap : ℚ) : List (OrganizeItem × LayoutPosition) → Bool
  | [] => true
  | [_] => true
  | a :: b :: rest =>
    decide (gap ≤ b.2.y - (a.2.y + a.1.height)) && ConsecGapY gap (b :: rest)

/-- Consecutive-pair horizontal separation of one placed row: every next
item's left edge clears the previous item's right edge by at least `gap`. -/
def ConsecGapX (gap : ℚ) : List (OrganizeItem × LayoutPosition) → Bool
  | [] => true
  | [_] => true
  | a :: b :: rest =>
    decide (gap ≤ b.2.x - (a.2.x + a.1.width)) && ConsecGapX gap (b :: rest)

/-- Invariant of the per-entry fold in a horizontal column: the placed list
is `gap`-separated and the recorded previous bottom dominates the last
placed item's bottom. -/
def HPlaceInv (gap : ℚ) (st : HPlaceState) : Prop :=
  ConsecGapY gap st.placed = true ∧
  (st.previous_bottom = none → st.placed = []) ∧
  (∀ pb a, st.previous_bottom = some pb → st.placed.getLast? = some a →
      a.2.y + a.1.height ≤ pb)

/-- Invariant of the per-level fold in horizontal orientation: every
recorded column is `gap`-separated. -/
def HLevelInv (gap : ℚ) (st : HLevelState) : Prop :=
  ∀ c ∈ st.orders, ConsecGapY gap c = true

/-- Invariant of the per-item fold in a vertical row: the placed list is
`gap`-separated and the cursor dominates the last placed item's right edge
plus spacing (up to the half-pixel the rounding can lose). -/
def VRowInv (gap h_spacing : ℚ) (acc : VRowState) : Prop :=
  ConsecGapX gap acc.placed = true ∧
  (∀ a, acc.placed.getLast? = some a →
      a.2.x + a.1.width + h_spacing - 1/2 ≤ acc.cursor_x)

/-- Invariant of the per-level fold in vertical orientation. -/
def VLevelInv (gap : ℚ) (st : VLevelState) : Prop :=
  ∀ c ∈ st.orders, ConsecGapX gap c = true

/-- Three items for the intra-level spacing witness: `c` feeds both `a` and
`b`, so `a` and `b` share level 1 and are placed as one column pair. -/
def spacedItems : List OrganizeItem :=
  [OrganizeItem.mk "c" "node" 120 80 0 0 ["c"],
   OrganizeItem.mk "a" "node" 120 80 200 0 ["a"],
   OrganizeItem.mk "b" "node" 120 80 200 300 ["b"]]

/-- The fan-out edges `c → a`, `c → b` of the spacing witness. -/
def spacedEdges : List OrganizeEdge := [OrganizeEdge.mk "c" "a", OrganizeEdge.mk "c" "b"]

/-- A 2-chain `a → b` for the acyclic level-order witness. -/
def chainItems : List OrganizeItem :=
  [OrganizeItem.mk "a" "node" 10 10 0 0 ["a"],
   OrganizeItem.mk "b" "node" 10 10 0 20 ["b"]]

/-- The single chain edge `a → b`. -/
def chainEdges : List OrganizeEdge := [OrganizeEdge.mk "a" "b"]

/-- The level-1 column the spacing witness produces: `a` stacked above `b`,
with a 140-pixel gap between `a`'s bottom (80) and `b`'s top (220). -/
def spacedCol : List (OrganizeItem × LayoutPosition) :=
  [(OrganizeItem.mk "a" "node" 120 80 200 0 ["a"], LayoutPosition.mk 210 0),
   (OrganizeItem.mk "b" "node" 120 80 200 300 ["b"], LayoutPosition.mk 210 220)]

-- ===========================================================================
-- THEOREMS
-- ===========================================================================

theorem pyround_sub_le (q : ℚ) : |(pyround q : ℚ) - q| ≤ 1/2 := by
  have h0 : (⌊q⌋ : ℚ) ≤ q := Int.floor_le q
  have h1 : q < (⌊q⌋ : ℚ) + 1 := Int.lt_floor_add_one q
  rw [pyround]
  split_ifs with ha hb hc <;>
    · rw [abs_le]
      push_cast
      constructor <;> linarith

theorem pyround_intCast (n : ℤ) : pyround (n : ℚ) = n := by
  rw [pyround]
  simp

theorem pyround_ge (q : ℚ) : q - 1/2 ≤ (pyround q : ℚ) := by
  have h := abs_le.mp (pyround_sub_le q)
  linarith [h.1, h.2]

theorem pyround_le (q : ℚ) : (pyround q : ℚ) ≤ q + 1/2 := by
  have h := abs_le.mp (pyround_sub_le q)
  linarith [h.1, h.2]

theorem IsIntQ.add {a b : ℚ} (ha : IsIntQ a) (hb : IsIntQ b) : IsIntQ (a + b) := by
  obtain ⟨m, rfl⟩ := ha; obtain ⟨n, rfl⟩ := hb
  exact ⟨m + n, by push_cast; ring⟩

theorem IsIntQ.sub {a b : ℚ} (ha : IsIntQ a) (hb : IsIntQ b) : IsIntQ (a - b) := by
  obtain ⟨m, rfl⟩ := ha; obtain ⟨n, rfl⟩ := hb
  exact ⟨m - n, by push_cast; ring⟩

theorem IsIntQ.intCast (n : ℤ) : IsIntQ (n : ℚ) := ⟨n, rfl⟩

/-- Integer gap absorption: two integer-valued rationals within `B + 1/2`
of each other are within `B` of each other. -/
theorem int_gap_absorb {a b : ℚ} {B : ℤ} (ha : IsIntQ a) (hb : IsIntQ b)
    (h : |a - b| ≤ (B : ℚ) + 1/2) : |a - b| ≤ (B : ℚ) := by
  obtain ⟨m, rfl⟩ := ha; obtain ⟨n, rfl⟩ := hb
  rw [← Int.cast_sub, ← Int.cast_abs] at h ⊢
  have h4 : |m - n| ≤ B := by
    by_contra hc
    push_neg at hc
    have h5 : ((B + 1 : ℤ) : ℚ) ≤ ((|m - n| : ℤ) : ℚ) := by exact_mod_cast hc
    push_cast at h5
    push_cast at h
    linarith
  exact_mod_cast h4

namespace PyDict

variable {κ ν : Type} [DecidableEq κ]

theorem get_replace (rest : List (κ × ν)) (k : κ) (v : ν) :
    PyDict.get (rest.map (fun p => if p.1 = k then (k, v) else p)) k =
      if rest.any (fun p => decide (p.1 = k)) then some v else none := by
  induction rest with
  | nil => simp [get]
  | cons p tail ih =>
    by_cases hp : p.1 = k
    · unfold get
      rw [List.map_cons, if_pos hp, List.find?_cons_of_pos _ (by simp)]
      simp [hp]
    · unfold get
      rw [List.map_cons, if_neg hp, List.find?_cons_of_neg _ (by simpa using hp)]
      unfold get at ih
      rw [ih]
      simp only [List.any_cons, decide_eq_false hp, Bool.false_or]

theorem get_append_single (d : List (κ × ν)) (k : κ) (v : ν)
    (h : d.all (fun p => decide (p.1 ≠ k))) :
    PyDict.get (d ++ [(k, v)]) k = some v := by
  induction d with
  | nil => simp [get, List.find?]
  | cons p tail ih =>
    simp only [List.all_cons, Bool.and_eq_true, decide_eq_true_eq] at h
    unfold get
    rw [List.cons_append, List.find?_cons_of_neg _ (by simpa using h.1)]
    unfold get at ih
    exact ih (by simpa using h.2)

theorem get_set_self (d : PyDict κ ν) (k : κ) (v : ν) : (d.set k v).get k = some v := by
  unfold set
  by_cases h : d.any (fun p => decide (p.1 = k)) = true
  · rw [if_pos h, get_replace, if_pos h]
  · rw [if_neg h]
    refine get_append_single d k v ?_
    simp only [List.any_eq_true, decide_eq_true_eq] at h
    push_neg at h
    simp only [List.all_eq_true, decide_eq_true_eq]
    exact h

theorem get_replace_ne (rest : List (κ × ν)) (k k' : κ) (v : ν) (hne : k' ≠ k) :
    PyDict.get (rest.map (fun p => if p.1 = k then (k, v) else p)) k' =
      PyDict.get rest k' := by
  induction rest with
  | nil => simp [get]
  | cons p tail ih =>
    by_cases hp : p.1 = k
    · unfold get
      rw [List.map_cons, if_pos hp,
        List.find?_cons_of_neg _ (by simpa using Ne.symm hne),
        List.find?_cons_of_neg _ (by simp only [hp]; simpa using Ne.symm hne)]
      exact ih
    · by_cases hpk : p.1 = k'
      · unfold get
        rw [List.map_cons, if_neg hp,
          List.find?_cons_of_pos _ (by simpa using hpk),
          List.find?_cons_of_pos _ (by simpa using hpk)]
      · unfold get
        rw [List.map_cons, if_neg hp,
          List.find?_cons_of_neg _ (by simpa using hpk),
          List.find?_cons_of_neg _ (by simpa using hpk)]
        exact ih

theorem get_set_ne (d : PyDict κ ν) (k k' : κ) (v : ν) (hne : k' ≠ k) :
    (d.set k v).get k' = d.get k' := by
  unfold set
  by_cases h : d.any (fun p => decide (p.1 = k)) = true
  · rw [if_pos h]
    exact get_replace_ne d k k' v hne
  · rw [if_neg h]
    induction d with
    | nil => simp [get, List.find?, Ne.symm hne]
    | cons p tail ih =>
      by_cases hpk : p.1 = k'
      · unfold get
        rw [List.cons_append, List.find?_cons_of_pos _ (by simpa using hpk),
          List.find?_cons_of_pos _ (by simpa using hpk)]
      · unfold get
        rw [List.cons_append, List.find?_cons_of_neg _ (by simpa using hpk),
          List.find?_cons_of_neg _ (by simpa using hpk)]
        refine ih ?_
        intro hc
        exact h (by simp only [List.any_cons, Bool.or_eq_true]; exact Or.inr hc)

end PyDict

theorem mem_insertSorted {α : Type} (le : α → α → Bool) (a x : α) (l : List α) :
    x ∈ insertSorted le a l ↔ x = a ∨ x ∈ l := by
  induction l with
  | nil => simp [insertSorted]
  | cons b rest ih =>
    unfold insertSorted
    by_cases h : le a b
    · simp [h]
    · simp only [Bool.not_eq_true] at h
      simp only [h, Bool.false_eq_true, if_false, List.mem_cons, ih]
      tauto

theorem mem_pySort {α : Type} (le : α → α → Bool) (x : α) (l : List α) :
    x ∈ pySort le l ↔ x ∈ l := by
  induction l with
  | nil => simp [pySort]
  | cons a rest ih =>
    unfold pySort
    rw [mem_insertSorted, List.mem_cons, ih]

theorem length_insertSorted {α : Type} (le : α → α → Bool) (a : α) (l : List α) :
    (insertSorted le a l).length = l.length + 1 := by
  induction l with
  | nil => simp [insertSorted]
  | cons b rest ih =>
    unfold insertSorted
    by_cases h : le a b
    · simp [h]
    · simp [h, ih]

theorem length_pySort {α : Type} (le : α → α → Bool) (l : List α) :
    (pySort le l).length = l.length := by
  induction l with
  | nil => rfl
  | cons a rest ih => unfold pySort; rw [length_insertSorted, ih]; simp

/-- `insertSorted` preserves chains of a transitive total comparison
(`le x y = false → le y x = true`). -/
theorem pairwise_insertSorted {α : Type} (le : α → α → Bool)
    (htot : ∀ x y, le x y = false → le y x = true)
    (htrans : ∀ x y z, le x y = true → le y z = true → le x z = true)
    (a : α) (l : List α) (hl : l.Pairwise (fun x y => le x y = true)) :
    (insertSorted le a l).Pairwise (fun x y => le x y = true) := by
  induction l with
  | nil => simp [insertSorted]
  | cons b rest ih =>
    unfold insertSorted
    rcases List.pairwise_cons.mp hl with ⟨hb, hrest⟩
    by_cases h : le a b
    · simp only [h, if_true]
      refine List.pairwise_cons.mpr ⟨?_, hl⟩
      intro x hx
      rcases List.mem_cons.mp hx with rfl | hx
      · exact h
      · exact htrans _ _ _ h (hb x hx)
    · simp only [h, if_false]
      refine List.pairwise_cons.mpr ⟨?_, ih hrest⟩
      intro x hx
      rcases (mem_insertSorted le a x rest).mp hx with rfl | hx
      · exact htot _ _ (by simpa using h)
      · exact hb x hx

/-- `pySort` produces a chain of a transitive total comparison. -/
theorem pairwise_pySort {α : Type} (le : α → α → Bool)
    (htot : ∀ x y, le x y = false → le y x = true)
    (htrans : ∀ x y z, le x y = true → le y z = true → le x z = true)
    (l : List α) : (pySort le l).Pairwise (fun x y => le x y = true) := by
  induction l with
  | nil => simp [pySort]
  | cons a rest ih => exact pairwise_insertSorted le htot htrans a _ ih

-- ---------------------------------------------------------------------------
-- Claim C10 — get_label falls back to the id when the label is None or ""
-- ---------------------------------------------------------------------------

/-- C10: for every entity of the data model (node, machine, factory, network),
`get_label()` returns the id not only when the label is `None` but also when
it is the empty string. -/
theorem get_label_empty_falls_back_to_id
    (n : CanvasNode) (m : CanvasMachine) (f : CanvasFactory) (nw : CanvasNetwork) :
    ((n.label = none ∨ n.label = some "") → n.get_label = n.id) ∧
    ((m.label = none ∨ m.label = some "") → m.get_label = m.id) ∧
    ((f.label = none ∨ f.label = some "") → f.get_label = f.id) ∧
    ((nw.label = none ∨ nw.label = some "") → nw.get_label = nw.id) := by
  refine ⟨?_, ?_, ?_, ?_⟩ <;>
    rintro (h | h) <;>
    simp [CanvasNode.get_label, CanvasMachine.get_label,
      CanvasFactory.get_label, CanvasNetwork.get_label, h]

-- ---------------------------------------------------------------------------
-- Claim C9 — spacing_level has no influence on organize_canvas
-- ---------------------------------------------------------------------------

/-- C9: for every canvas and any two values of the `spacing_level` argument,
`organize_canvas` with the same orientation produces identical results: the
knob is accepted at the API surface but never read by the engine. -/
theorem organize_canvas_spacing_level_irrelevant
    (canvas : Canvas) (s1 s2 orientation : String) :
    organize_canvas canvas s1 orientation = organize_canvas canvas s2 orientation := rfl

-- ---------------------------------------------------------------------------
-- Claim C1 — organize_canvas raises KeyError on an empty first factory
-- ---------------------------------------------------------------------------

/-- C1 (failing evaluation): on a network whose first factory has no
machines while the second factory is non-empty, the layout call does NOT
complete: `_organize_network` evaluates `factory_bounds[network.factories[0].id]`
with exactly one bounds entry that belongs to the other factory, and the
resulting `KeyError` escapes `organize_canvas`, contradicting the
"never throws, empty containers silently skipped" contract. -/
theorem organize_canvas_raises_on_empty_first_factory :
    organize_canvas emptyFirstFactoryCanvas "container" "horizontal" =
      Except.error "KeyError: factory_bounds" := by
  with_unfolding_all decide

-- ---------------------------------------------------------------------------
-- Claim C2 — the intersection margin expands, not contracts, the box
-- ---------------------------------------------------------------------------

/-- C2 (failing evaluation): with the default margin −8, a sampled point
that merely grazes the node's left edge (point x = node x, well below
node.x + 8) IS counted as a hit: `_node_intersects_path` computes
`x1 = node.x + margin`, so the negative margin EXPANDS the rectangle by 8
on each side instead of contracting it as the specification (and the
code's own comments) state. -/
theorem node_intersects_path_hits_grazing_point :
    _node_intersects_path grazeNode [_BezierSegment.mk 0 50] NODE_BBOX_MARGIN = true ∧
      ¬(grazeNode.x + 8 ≤ (_BezierSegment.mk (0:ℚ) 50).x) := by
  with_unfolding_all decide

-- ---------------------------------------------------------------------------
-- Claim C3 — all-dangling edges do NOT trigger the grid fallback
-- ---------------------------------------------------------------------------

/-- C3 (counterexample): two items sorted by `(y, x)` with `grid_columns = 1`
and a single dangling edge.  The claim predicts grid-fallback levels
`a ↦ 0, b ↦ 1`; the code tests `len(edges)` on the RAW edge list, skips the
fallback, and both items land in level 0. -/
theorem placer_fallback_counterexample :
    (computeEffectiveLevels danglingItems danglingEdges oneColumnOpts).get "b" = some 0 ∧
      ¬((computeEffectiveLevels danglingItems danglingEdges oneColumnOpts).get "b" = some 1) := by
  with_unfolding_all decide

-- ---------------------------------------------------------------------------
-- Claim C4 — topological level order fails on cycles
-- ---------------------------------------------------------------------------

/-- C4 (counterexample): on the 2-cycle `a → b → a` both edges survive, yet
the cycle-resolution rule assigns `a ↦ 0, b ↦ 1`, so the surviving edge
`(b, a)` has `level(b) = 1 ≥ 0 = level(a)`, refuting the claim as stated
for every input. -/
theorem placer_level_order_cycle_counterexample :
    OrganizeEdge.mk "b" "a" ∈ cycleEdges ∧
    "b" ∈ cycleItems.map OrganizeItem.id ∧
    "a" ∈ cycleItems.map OrganizeItem.id ∧
    (computeEffectiveLevels cycleItems cycleEdges defaultOrganizeOptions).get "b" = some 1 ∧
    (computeEffectiveLevels cycleItems cycleEdges defaultOrganizeOptions).get "a" = some 0 ∧
    ¬((1 : ℕ) < 0) := by
  with_unfolding_all decide

-- ---------------------------------------------------------------------------
-- Claim C5 — the displacement cap can be exceeded by half a pixel
-- ---------------------------------------------------------------------------

/-- C5 (counterexample): on `halfIntegerCanvas` the bystander `B` starts at
y = 11.5; the clamped nudge puts it at `round(411.5) = 412` (half-to-even
rounds up here), a displacement of 400.5 > 400 that later passes cannot
shrink, so the Avoider ends with `|y_final − y_pass_start| > 400`. -/
theorem avoider_cap_counterexample :
    (halfIntegerCanvas.getNodeById "B").map CanvasNode.y = some (23/2) ∧
    (((_avoid_connectors halfIntegerCanvas CONNECTOR_CLEARANCE
        MAX_NUDGE_ITERATIONS).1.getNodeById "B").map CanvasNode.y = some 412) ∧
    ¬(|(412 : ℚ) - 23/2| ≤ MAX_NUDGE_DISPLACEMENT) := by
  with_unfolding_all decide

-- ---------------------------------------------------------------------------
-- Claim C7 — connector sampler endpoints are the chosen port midpoints
-- ---------------------------------------------------------------------------

theorem bezier_point_at_zero (p : BezierSetup) (cps : ℚ × ℚ × ℚ × ℚ) (steps : ℕ) :
    _bezier_point_at p cps steps 0 = _BezierSegment.mk p.sx p.sy := by
  unfold _bezier_point_at
  norm_num

theorem bezier_point_at_last (p : BezierSetup) (cps : ℚ × ℚ × ℚ × ℚ) (steps : ℕ)
    (h : steps ≠ 0) :
    _bezier_point_at p cps steps steps = _BezierSegment.mk p.ex p.ey := by
  unfold _bezier_point_at
  have h1 : ((steps : ℕ) : ℚ) / (steps : ℚ) = 1 := by
    rw [div_self]
    exact_mod_cast h
  rw [h1]
  norm_num

theorem sample_bezier_head (src dst : CanvasNode) (steps : ℕ) :
    (_sample_bezier_path src dst steps).head? =
      some (_BezierSegment.mk (_bezier_ports src dst).sx (_bezier_ports src dst).sy) := by
  unfold _sample_bezier_path
  rw [List.range_succ_eq_map, List.map_cons, List.head?_cons,
    bezier_point_at_zero]

theorem sample_bezier_last (src dst : CanvasNode) (steps : ℕ) (h : steps ≠ 0) :
    (_sample_bezier_path src dst steps).getLast? =
      some (_BezierSegment.mk (_bezier_ports src dst).ex (_bezier_ports src dst).ey) := by
  unfold _sample_bezier_path
  rw [List.range_succ, List.map_append, List.map_cons, List.map_nil,
    List.getLast?_concat, bezier_point_at_last _ _ _ h]

theorem bezier_ports_cases (src dst : CanvasNode) :
    _bezier_ports src dst =
      (if |connector_dy src dst| > src.height * 1.5 ∧
          |connector_dy src dst| > |connector_dx src dst| then
        if connector_dy src dst > 0 then
          BezierSetup.mk (src.x + src.width / 2) (src.y + src.height)
            (dst.x + dst.width / 2) dst.y true
        else
          BezierSetup.mk (src.x + src.width / 2) src.y
            (dst.x + dst.width / 2) (dst.y + dst.height) true
      else
        if connector_dx src dst ≥ 0 then
          BezierSetup.mk (src.x + src.width) (src.y + src.height / 2)
            dst.x (dst.y + dst.height / 2) false
        else
          BezierSetup.mk src.x (src.y + src.height / 2)
            (dst.x + dst.width) (dst.y + dst.height / 2) false) := rfl

/-- C7: for every ordered node pair whose center distance satisfies
`|dy| > 1.5 · src.height` and `|dy| > |dx|`, the sampled polyline starts
exactly at the midpoint of the source's bottom edge (top if `dy < 0`) and
ends exactly at the midpoint of the target's top edge (bottom if `dy < 0`);
otherwise it runs from the source's right/left edge midpoint to the
target's left/right edge midpoint according to the sign of `dx`. -/
theorem connector_port_selection (src dst : CanvasNode) (steps : ℕ) (hsteps : 1 ≤ steps) :
    ((|connector_dy src dst| > src.height * 1.5 ∧
        |connector_dy src dst| > |connector_dx src dst|) →
      ((0 < connector_dy src dst →
        (_sample_bezier_path src dst steps).head? =
          some (_BezierSegment.mk (src.x + src.width / 2) (src.y + src.height)) ∧
        (_sample_bezier_path src dst steps).getLast? =
          some (_BezierSegment.mk (dst.x + dst.width / 2) dst.y)) ∧
       (connector_dy src dst < 0 →
        (_sample_bezier_path src dst steps).head? =
          some (_BezierSegment.mk (src.x + src.width / 2) src.y) ∧
        (_sample_bezier_path src dst steps).getLast? =
          some (_BezierSegment.mk (dst.x + dst.width / 2) (dst.y + dst.height))))) ∧
    (¬(|connector_dy src dst| > src.height * 1.5 ∧
        |connector_dy src dst| > |connector_dx src dst|) →
      ((0 ≤ connector_dx src dst →
        (_sample_bezier_path src dst steps).head? =
          some (_BezierSegment.mk (src.x + src.width) (src.y + src.height / 2)) ∧
        (_sample_bezier_path src dst steps).getLast? =
          some (_BezierSegment.mk dst.x (dst.y + dst.height / 2))) ∧
       (connector_dx src dst < 0 →
        (_sample_bezier_path src dst steps).head? =
          some (_BezierSegment.mk src.x (src.y + src.height / 2)) ∧
        (_sample_bezier_path src dst steps).getLast? =
          some (_BezierSegment.mk (dst.x + dst.width) (dst.y + dst.height / 2))))) := by
  have hh := sample_bezier_head src dst steps
  have hl := sample_bezier_last src dst steps (by omega)
  rw [bezier_ports_cases] at hh hl
  constructor
  · intro hvert
    rw [if_pos hvert] at hh hl
    refine ⟨fun hdy => ?_, fun hdy => ?_⟩
    · rw [if_pos hdy] at hh hl
      exact ⟨hh, hl⟩
    · rw [if_neg (by linarith)] at hh hl
      exact ⟨hh, hl⟩
  · intro hflat
    rw [if_neg hflat] at hh hl
    refine ⟨fun hdx => ?_, fun hdx => ?_⟩
    · rw [if_pos hdx] at hh hl
      exact ⟨hh, hl⟩
    · rw [if_neg (by linarith)] at hh hl
      exact ⟨hh, hl⟩

/-- Witness for C7: the port-selection theorem applied to a concrete pair
with vertical ports. -/
theorem connector_port_selection_witness :
    1 ≤ 20 ∧
    (((|connector_dy sampleSrcNode sampleDstNode| > sampleSrcNode.height * 1.5 ∧
        |connector_dy sampleSrcNode sampleDstNode| > |connector_dx sampleSrcNode sampleDstNode|) →
      ((0 < connector_dy sampleSrcNode sampleDstNode →
        (_sample_bezier_path sampleSrcNode sampleDstNode 20).head? =
          some (_BezierSegment.mk (sampleSrcNode.x + sampleSrcNode.width / 2)
            (sampleSrcNode.y + sampleSrcNode.height)) ∧
        (_sample_bezier_path sampleSrcNode sampleDstNode 20).getLast? =
          some (_BezierSegment.mk (sampleDstNode.x + sampleDstNode.width / 2)
            sampleDstNode.y)) ∧
       (connector_dy sampleSrcNode sampleDstNode < 0 →
        (_sample_bezier_path sampleSrcNode sampleDstNode 20).head? =
          some (_BezierSegment.mk (sampleSrcNode.x + sampleSrcNode.width / 2)
            sampleSrcNode.y) ∧
        (_sample_bezier_path sampleSrcNode sampleDstNode 20).getLast? =
          some (_BezierSegment.mk (sampleDstNode.x + sampleDstNode.width / 2)
            (sampleDstNode.y + sampleDstNode.height))))) ∧
    (¬(|connector_dy sampleSrcNode sampleDstNode| > sampleSrcNode.height * 1.5 ∧
        |connector_dy sampleSrcNode sampleDstNode| > |connector_dx sampleSrcNode sampleDstNode|) →
      ((0 ≤ connector_dx sampleSrcNode sampleDstNode →
        (_sample_bezier_path sampleSrcNode sampleDstNode 20).head? =
          some (_BezierSegment.mk (sampleSrcNode.x + sampleSrcNode.width)
            (sampleSrcNode.y + sampleSrcNode.height / 2)) ∧
        (_sample_bezier_path sampleSrcNode sampleDstNode 20).getLast? =
          some (_BezierSegment.mk sampleDstNode.x
            (sampleDstNode.y + sampleDstNode.height / 2))) ∧
       (connector_dx sampleSrcNode sampleDstNode < 0 →
        (_sample_bezier_path sampleSrcNode sampleDstNode 20).head? =
          some (_BezierSegment.mk sampleSrcNode.x
            (sampleSrcNode.y + sampleSrcNode.height / 2)) ∧
        (_sample_bezier_path sampleSrcNode sampleDstNode 20).getLast? =
          some (_BezierSegment.mk (sampleDstNode.x + sampleDstNode.width)
            (sampleDstNode.y + sampleDstNode.height / 2)))))) :=
  ⟨by norm_num, connector_port_selection sampleSrcNode sampleDstNode 20 (by norm_num)⟩

-- ---------------------------------------------------------------------------
-- Claim C8 — the Avoider changes nothing but node y-coordinates
-- ---------------------------------------------------------------------------

theorem foldlPreserves {α β : Type} (P : α → Prop) (f : α → β → α) (l : List β)
    (hstep : ∀ a b, P a → P (f a b)) : ∀ a, P a → P (l.foldl f a) := by
  induction l with
  | nil => intro a ha; exact ha
  | cons b rest ih =>
    intro a ha
    exact ih (f a b) (hstep a b ha)

theorem Canvas.mapNodes_mapNodes (c : Canvas) (f g : CanvasNode → CanvasNode) :
    (c.mapNodes f).mapNodes g = c.mapNodes (fun n => g (f n)) := by
  unfold Canvas.mapNodes
  simp [List.map_map, Function.comp_def]

theorem eraseY_updateNodeY (c : Canvas) (node_id : String) (v : ℚ) :
    (updateNodeY c node_id v).eraseY = c.eraseY := by
  unfold updateNodeY Canvas.eraseY
  rw [Canvas.mapNodes_mapNodes]
  have h : (fun n : CanvasNode => { (if n.id = node_id then { n with y := v } else n) with y := 0 })
      = (fun n : CanvasNode => { n with y := 0 }) := by
    funext n
    by_cases hn : n.id = node_id <;> simp [hn]
  rw [h]

theorem avoidSiblingStep_eraseY (oy : PyDict String ℚ) (nid : String) (d s ny : ℚ)
    (st : AvoidState) (sib : String) :
    (avoidSiblingStep oy nid d s ny st sib).canvas.eraseY = st.canvas.eraseY := by
  unfold avoidSiblingStep
  repeat' split
  all_goals try rfl
  all_goals simp only [apply_ite (fun a : AvoidState => a.canvas.eraseY),
    eraseY_updateNodeY, ite_self]

theorem applyNudge_eraseY (oy : PyDict String ℚ) (ntm : PyDict String String)
    (mn : PyDict String (List String)) (node_id : String) (d s ny : ℚ)
    (st : AvoidState) :
    (applyNudge oy ntm mn node_id d s ny st).canvas.eraseY = st.canvas.eraseY := by
  unfold applyNudge
  split
  · exact eraseY_updateNodeY st.canvas node_id _
  · refine foldlPreserves (fun a : AvoidState => a.canvas.eraseY = st.canvas.eraseY) _ _
      (fun a b ha => by
        show (avoidSiblingStep _ _ _ _ _ a b).canvas.eraseY = st.canvas.eraseY
        rw [avoidSiblingStep_eraseY]; exact ha) _ ?_
    exact eraseY_updateNodeY st.canvas node_id _

theorem avoidNodeStep_eraseY (cl : ℚ) (oy : PyDict String ℚ)
    (ntm : PyDict String String) (mn : PyDict String (List String))
    (src_id dst_id : String) (path : List _BezierSegment)
    (st : AvoidState) (node_id : String) :
    (avoidNodeStep cl oy ntm mn src_id dst_id path st node_id).canvas.eraseY =
      st.canvas.eraseY := by
  unfold avoidNodeStep
  repeat' split
  all_goals first
  | rfl
  | apply applyNudge_eraseY

theorem avoidConnStep_eraseY (cl : ℚ) (ids : List String) (oy : PyDict String ℚ)
    (ntm : PyDict String String) (mn : PyDict String (List String))
    (st : AvoidState) (conn : String × String) :
    (avoidConnStep cl ids oy ntm mn st conn).canvas.eraseY = st.canvas.eraseY := by
  unfold avoidConnStep
  repeat' split
  all_goals try rfl
  all_goals
    exact foldlPreserves (fun a : AvoidState => a.canvas.eraseY = st.canvas.eraseY) _ _
      (fun a b ha => by
        show (avoidNodeStep _ _ _ _ _ _ _ a b).canvas.eraseY = st.canvas.eraseY
        rw [avoidNodeStep_eraseY]; exact ha) _ rfl

theorem avoidPass_eraseY (cl : ℚ) (conns : List (String × String)) (ids : List String)
    (oy : PyDict String ℚ) (ntm : PyDict String String) (mn : PyDict String (List String))
    (canvas : Canvas) (total : ℕ) :
    (avoidPass cl conns ids oy ntm mn canvas total).canvas.eraseY = canvas.eraseY := by
  unfold avoidPass
  exact foldlPreserves (fun a : AvoidState => a.canvas.eraseY = canvas.eraseY) _ _
    (fun a b ha => by
      show (avoidConnStep _ _ _ _ _ a b).canvas.eraseY = canvas.eraseY
      rw [avoidConnStep_eraseY]; exact ha) _ rfl

theorem avoidLoop_eraseY (cl : ℚ) (conns : List (String × String)) (ids : List String)
    (oy : PyDict String ℚ) (ntm : PyDict String String) (mn : PyDict String (List String))
    (fuel : ℕ) (canvas : Canvas) (total : ℕ) :
    (avoidLoop cl conns ids oy ntm mn fuel canvas total).1.eraseY = canvas.eraseY := by
  induction fuel generalizing canvas total with
  | zero => rfl
  | succ k ih =>
    show (if (avoidPass cl conns ids oy ntm mn canvas total).nudged.isEmpty = true then
        ((avoidPass cl conns ids oy ntm mn canvas total).canvas,
          (avoidPass cl conns ids oy ntm mn canvas total).total)
      else avoidLoop cl conns ids oy ntm mn k
        (avoidPass cl conns ids oy ntm mn canvas total).canvas
        (avoidPass cl conns ids oy ntm mn canvas total).total).1.eraseY = canvas.eraseY
    split
    · exact avoidPass_eraseY cl conns ids oy ntm mn canvas total
    · rw [ih]
      exact avoidPass_eraseY cl conns ids oy ntm mn canvas total

/-- C8: for every canvas, the Avoider changes only node y-coordinates —
erasing the y fields of its result gives back exactly the canvas with its
own y fields erased, so every node's x, width, height, every other field,
and the whole container structure are untouched. -/
theorem avoider_changes_only_y (canvas : Canvas) (clearance : ℚ) (max_iterations : ℕ) :
    ((_avoid_connectors canvas clearance max_iterations).1).eraseY = canvas.eraseY := by
  show (if canvas.all_connections.isEmpty = true ∨ canvas.all_nodes.length < 3 then (canvas, 0)
      else avoidLoop clearance canvas.all_connections (canvas.all_nodes.map CanvasNode.id)
        (canvas.all_nodes.foldl (fun d n => d.set n.id n.y) [])
        (_build_node_to_machine_map canvas) (machineNodeIds canvas)
        max_iterations canvas 0).1.eraseY = canvas.eraseY
  split
  · rfl
  · exact avoidLoop_eraseY _ _ _ _ _ _ _ _ _

-- ---------------------------------------------------------------------------
-- PyDict and sort support lemmas for the level-assignment proofs
-- ---------------------------------------------------------------------------

namespace PyDict

variable {κ ν : Type} [DecidableEq κ]

theorem contains_eq_isSome (d : PyDict κ ν) (k : κ) :
    d.contains k = (d.get k).isSome := by
  unfold contains get
  rw [Bool.eq_iff_iff]
  simp [List.any_eq_true, List.find?_isSome]

theorem get_mem_valuesOf (d : PyDict κ ν) (k : κ) (v : ν)
    (h : d.get k = some v) : v ∈ d.valuesOf := by
  unfold get at h
  rcases Option.map_eq_some'.mp h with ⟨p, hp, rfl⟩
  exact List.mem_map.mpr ⟨p, List.mem_of_find?_eq_some hp, rfl⟩

theorem isEmpty_false_of_get (d : PyDict κ ν) (k : κ) (v : ν)
    (h : d.get k = some v) : d.isEmpty = false := by
  cases d with
  | nil => simp [get, List.find?] at h
  | cons p rest => rfl

theorem get_map_values {ν2 : Type} (d : PyDict κ ν) (f : ν → ν2) (k : κ) :
    PyDict.get (d.map (fun p => (p.1, f p.2))) k = (d.get k).map f := by
  induction d with
  | nil => rfl
  | cons p rest ih =>
    by_cases hp : p.1 = k
    · unfold get
      rw [List.map_cons, List.find?_cons_of_pos _ (by simpa using hp),
        List.find?_cons_of_pos _ (by simpa using hp)]
      rfl
    · unfold get
      rw [List.map_cons, List.find?_cons_of_neg _ (by simpa using hp),
        List.find?_cons_of_neg _ (by simpa using hp)]
      exact ih

theorem valuesOf_set_mem (d : PyDict κ ν) (k : κ) (v x : ν)
    (hx : x ∈ (d.set k v).valuesOf) : x ∈ d.valuesOf ∨ x = v := by
  unfold PyDict.set at hx
  split at hx
  · unfold valuesOf at hx
    rcases List.mem_map.mp hx with ⟨p, hp, hval⟩
    rcases List.mem_map.mp hp with ⟨q, hq, rfl⟩
    by_cases hqk : q.1 = k
    · right
      rw [if_pos hqk] at hval
      exact hval.symm
    · left
      rw [if_neg hqk] at hval
      exact List.mem_map.mpr ⟨q, hq, hval⟩
  · unfold valuesOf at hx ⊢
    rw [List.map_append] at hx
    rcases List.mem_append.mp hx with h1 | h2
    · exact Or.inl h1
    · right
      simpa using h2

theorem isEmpty_map (d : PyDict κ ν) {ν2 : Type} (f : κ × ν → κ × ν2) :
    (d.map f).isEmpty = d.isEmpty := by
  cases d <;> rfl

end PyDict

theorem foldl_fixed {α β : Type} (f : α → β → α) (s : α) (l : List β)
    (h : ∀ e ∈ l, f s e = s) : l.foldl f s = s := by
  induction l with
  | nil => rfl
  | cons b rest ih =>
    rw [List.foldl_cons, h b (by simp)]
    exact ih (fun e he => h e (by simp [he]))

theorem foldl_set_const_get {ν : Type} (ids : List String) (v : ν)
    (d0 : PyDict String ν) (k : String) :
    ((ids.foldl (fun d k2 => PyDict.set d k2 v) d0).get k) =
      if k ∈ ids then some v else d0.get k := by
  induction ids generalizing d0 with
  | nil => simp
  | cons a rest ih =>
    rw [List.foldl_cons, ih]
    by_cases hk : k ∈ rest
    · simp [hk]
    · by_cases hka : k = a
      · subst hka
        simp [hk, PyDict.get_set_self]
      · simp [hk, hka, PyDict.get_set_ne _ _ _ _ hka]

theorem dictInit_get {ν : Type} (ids : List String) (v : ν) (k : String) :
    (dictInit ids v).get k = if k ∈ ids then some v else none := by
  unfold dictInit
  rw [foldl_set_const_get]
  rfl

theorem dictInit_getD_zero (ids : List String) (k : String) :
    (dictInit ids (0 : ℤ)).getD k 0 = 0 := by
  unfold PyDict.getD
  rw [dictInit_get]
  split <;> rfl

theorem dictInit_getD_nil (ids : List String) (k : String) :
    (dictInit ids ([] : List String)).getD k [] = [] := by
  unfold PyDict.getD
  rw [dictInit_get]
  split <;> rfl

theorem perm_insertSorted {α : Type} (le : α → α → Bool) (a : α) (l : List α) :
    (insertSorted le a l).Perm (a :: l) := by
  induction l with
  | nil => exact List.Perm.refl _
  | cons b rest ih =>
    unfold insertSorted
    by_cases h : le a b
    · simp [h]
    · simp only [Bool.not_eq_true] at h
      simp only [h, Bool.false_eq_true, if_false]
      exact (List.Perm.cons b ih).trans (List.Perm.swap a b rest)

theorem perm_pySort {α : Type} (le : α → α → Bool) (l : List α) :
    (pySort le l).Perm l := by
  induction l with
  | nil => exact List.Perm.refl _
  | cons a rest ih =>
    unfold pySort
    exact (perm_insertSorted le a (pySort le rest)).trans (List.Perm.cons a ih)

theorem nodup_all_singleton {α : Type} (u : List α) (a : α) (hn : u.Nodup)
    (hall : ∀ x ∈ u, x = a) (hmem : a ∈ u) : u = [a] := by
  cases u with
  | nil => cases hmem
  | cons b rest =>
    have hb : b = a := hall b (by simp)
    subst hb
    cases rest with
    | nil => rfl
    | cons c rest2 =>
      have hc : c = b := hall c (by simp)
      rcases List.nodup_cons.mp hn with ⟨hnb, _⟩
      exact absurd (by simp [hc]) hnb

-- ---------------------------------------------------------------------------
-- Claim C3 (amended): all-dangling edges produce an all-level-0 assignment
-- ---------------------------------------------------------------------------

theorem buildGraph_dangling (items : List OrganizeItem) (edges : List OrganizeEdge)
    (h : ∀ e ∈ edges, ¬(e.from_id ∈ items.map OrganizeItem.id ∧
      e.to_id ∈ items.map OrganizeItem.id)) :
    buildGraph items edges =
      (dictInit (items.map OrganizeItem.id) [], dictInit (items.map OrganizeItem.id) 0) := by
  unfold buildGraph
  apply foldl_fixed
  intro e he
  have hc := h e he
  have h1 : (dictInit (items.map OrganizeItem.id) ([] : List String)).contains e.from_id
      = decide (e.from_id ∈ items.map OrganizeItem.id) := by
    rw [PyDict.contains_eq_isSome, dictInit_get]
    by_cases hm : e.from_id ∈ items.map OrganizeItem.id <;> simp [hm]
  have h2 : (dictInit (items.map OrganizeItem.id) (0 : ℤ)).contains e.to_id
      = decide (e.to_id ∈ items.map OrganizeItem.id) := by
    rw [PyDict.contains_eq_isSome, dictInit_get]
    by_cases hm : e.to_id ∈ items.map OrganizeItem.id <;> simp [hm]
  have hfalse : ((dictInit (items.map OrganizeItem.id) ([] : List String)).contains e.from_id &&
      (dictInit (items.map OrganizeItem.id) (0 : ℤ)).contains e.to_id) = false := by
    rw [h1, h2]
    rcases not_and_or.mp hc with hna | hnb
    · simp [hna]
    · simp [hnb]
  simp [bgStep, hfalse]

theorem kahnLoop_levels_of_trivial_adj (adj : PyDict String (List String))
    (hadj : ∀ k, adj.getD k [] = []) (fuel : ℕ) (s : KahnState) :
    (kahnLoop adj fuel s).levels = s.levels := by
  induction fuel generalizing s with
  | zero => rfl
  | succ k ih =>
    obtain ⟨lv, ind, q⟩ := s
    cases q with
    | nil => rfl
    | cons current rest =>
      show (kahnLoop adj k (processTargets (PyDict.getD lv current 0)
        (adj.getD current []) (KahnState.mk lv ind rest))).levels = lv
      rw [hadj current]
      exact ih _

theorem seedInit_fold_get (indeg : PyDict String ℤ) (l : List OrganizeItem)
    (hall : ∀ it ∈ l, indeg.getD it.id 0 = 0)
    (st0 : PyDict String ℕ × List String) (k : String) :
    ((l.foldl (fun st item =>
        if indeg.getD item.id 0 = 0 then (st.1.set item.id 0, st.2 ++ [item.id]) else st)
      st0).1).get k
      = if k ∈ l.map OrganizeItem.id then some 0 else st0.1.get k := by
  induction l generalizing st0 with
  | nil => simp
  | cons a rest ih =>
    rw [List.foldl_cons, if_pos (hall a (List.mem_cons_self a rest)),
      ih (fun it hit => hall it (List.mem_cons_of_mem a hit)) _]
    by_cases hk : k ∈ rest.map OrganizeItem.id
    · simp [hk]
    · by_cases hka : k = a.id
      · subst hka
        simp [hk, PyDict.get_set_self]
      · simp [hk, hka, PyDict.get_set_ne _ _ _ _ hka]

theorem seedInit_get (indeg : PyDict String ℤ) (l : List OrganizeItem)
    (hall : ∀ it ∈ l, indeg.getD it.id 0 = 0) (k : String) :
    PyDict.get (seedInit indeg l).1 k =
      if k ∈ l.map OrganizeItem.id then some 0 else none := by
  unfold seedInit
  rw [seedInit_fold_get indeg l hall ([], []) k]
  rfl

theorem seedInit_values_zero (indeg : PyDict String ℤ) (l : List OrganizeItem)
    (x : ℕ) (hx : x ∈ (seedInit indeg l).1.valuesOf) : x = 0 := by
  unfold seedInit at hx
  have := foldlPreserves
    (fun st : PyDict String ℕ × List String => ∀ y ∈ st.1.valuesOf, y = 0)
    (fun st item =>
      if indeg.getD item.id 0 = 0 then (st.1.set item.id 0, st.2 ++ [item.id]) else st)
    l
    (fun st item hst => by
      show ∀ y ∈ (if indeg.getD item.id 0 = 0 then
          (st.1.set item.id 0, st.2 ++ [item.id]) else st).1.valuesOf, y = 0
      split
      · intro y hy
        rcases PyDict.valuesOf_set_mem st.1 item.id 0 y hy with hmem | rfl
        · exact hst y hmem
        · rfl
      · exact hst)
    ([], []) (by intro y hy; cases hy)
  exact this x hx

theorem resolveCycles_of_all_levelled (items : List OrganizeItem)
    (edges : List OrganizeEdge) (levels : PyDict String ℕ)
    (h : ∀ it ∈ items, (levels.get it.id).isSome = true) :
    resolveCycles items edges levels = levels := by
  unfold resolveCycles unresolvedItems
  have hf : items.filter (fun it => (levels.get it.id).isNone) = [] := by
    rw [List.filter_eq_nil_iff]
    intro it hit
    have h2 := h it hit
    cases hg : levels.get it.id with
    | none => rw [hg] at h2; simp at h2
    | some v => simp [hg]
  rw [hf]
  rfl

/-- C3 (amended): when every raw edge has a dangling endpoint but the edge
list is non-empty, the placer does NOT behave as on an edge-free input —
the grid fallback (which tests the raw `len(edges)`) is skipped, and every
item instead receives level 0 (all in-degrees are zero). -/
theorem placer_dangling_edges_all_level_zero (items : List OrganizeItem)
    (edges : List OrganizeEdge) (opts : OrganizeOptions)
    (hne : edges ≠ [])
    (hdangling : ∀ e ∈ edges, ¬(e.from_id ∈ items.map OrganizeItem.id ∧
      e.to_id ∈ items.map OrganizeItem.id))
    (hmany : 1 < items.length) :
    ∀ it ∈ items, (computeEffectiveLevels items edges opts).get it.id = some 0 := by
  intro it hit
  have hbg := buildGraph_dangling items edges hdangling
  -- the Kahn phase leaves the all-zero seed levels untouched
  have hphase : ∀ k : String, (kahnPhase items edges).levels.get k =
      if k ∈ (pySort itemLeXY items).map OrganizeItem.id then some 0 else none := by
    intro k
    show PyDict.get (kahnLoop (buildGraph items edges).1 (items.length + edges.length + 1)
      (KahnState.mk (seedInit (buildGraph items edges).2 (pySort itemLeXY items)).1
        (buildGraph items edges).2
        (seedInit (buildGraph items edges).2 (pySort itemLeXY items)).2)).levels k = _
    rw [hbg]
    rw [kahnLoop_levels_of_trivial_adj _ (dictInit_getD_nil (items.map OrganizeItem.id))]
    exact seedInit_get _ _ (fun it2 _ => dictInit_getD_zero _ _) k
  have hmem : it.id ∈ (pySort itemLeXY items).map OrganizeItem.id :=
    List.mem_map.mpr ⟨it, (mem_pySort itemLeXY it items).mpr hit, rfl⟩
  have hget : (kahnPhase items edges).levels.get it.id = some 0 := by
    rw [hphase it.id, if_pos hmem]
  -- no unresolved items
  have hres : resolveCycles items edges (kahnPhase items edges).levels =
      (kahnPhase items edges).levels := by
    apply resolveCycles_of_all_levelled
    intro it2 hit2
    rw [hphase it2.id,
      if_pos (List.mem_map.mpr ⟨it2, (mem_pySort itemLeXY it2 items).mpr hit2, rfl⟩)]
    rfl
  -- all recorded levels are 0
  have hvals : ∀ x ∈ (kahnPhase items edges).levels.valuesOf, x = 0 := by
    intro x hx
    have hsv : (kahnPhase items edges).levels = (seedInit (buildGraph items edges).2
        (pySort itemLeXY items)).1 := by
      show (kahnLoop (buildGraph items edges).1 (items.length + edges.length + 1)
        (KahnState.mk (seedInit (buildGraph items edges).2 (pySort itemLeXY items)).1
          (buildGraph items edges).2
          (seedInit (buildGraph items edges).2
            (pySort itemLeXY items)).2)).levels =
        (seedInit (buildGraph items edges).2 (pySort itemLeXY items)).1
      rw [hbg]
      exact kahnLoop_levels_of_trivial_adj _ (dictInit_getD_nil (items.map OrganizeItem.id)) _ _
    rw [hsv] at hx
    exact seedInit_values_zero _ _ x hx
  -- normalization maps the single used level 0 to 0
  have hzero_mem : (0 : ℕ) ∈ (kahnPhase items edges).levels.valuesOf :=
    PyDict.get_mem_valuesOf _ it.id 0 hget
  have hdedup : (kahnPhase items edges).levels.valuesOf.dedup = [0] := by
    apply nodup_all_singleton _ _ (List.nodup_dedup _)
    · intro x hx
      exact hvals x (List.mem_dedup.mp hx)
    · exact List.mem_dedup.mpr hzero_mem
  have hnorm : ∀ k : String,
      (normalizeLevels (kahnPhase items edges).levels).get k =
        ((kahnPhase items edges).levels.get k).map
          (fun v => PyDict.getD (levelRemap (kahnPhase items edges).levels) v v) := by
    intro k
    unfold normalizeLevels
    exact PyDict.get_map_values (kahnPhase items edges).levels
      (fun v => (levelRemap (kahnPhase items edges).levels).getD v v) k
  have hremap : levelRemap (kahnPhase items edges).levels = [(0, 0)] := by
    unfold levelRemap
    rw [hdedup]
    rfl
  have hnormget : (normalizeLevels (kahnPhase items edges).levels).get it.id = some 0 := by
    rw [hnorm, hget, hremap]
    rfl
  -- assemble: fallback skipped, normalized non-empty
  unfold computeEffectiveLevels
  rw [if_neg (by
    rintro ⟨hlen, _⟩
    exact hne (List.length_eq_zero.mp hlen))]
  unfold effectiveBeforeFallback
  rw [hres]
  rw [if_neg (by
    rw [PyDict.isEmpty_false_of_get _ it.id 0 hnormget]
    simp)]
  exact hnormget

/-- Witness for the amended C3: the concrete dangling-edge input satisfies
the hypotheses, and both items indeed receive level 0. -/
theorem placer_dangling_edges_all_level_zero_witness :
    danglingEdges ≠ [] ∧
    (∀ e ∈ danglingEdges, ¬(e.from_id ∈ danglingItems.map OrganizeItem.id ∧
      e.to_id ∈ danglingItems.map OrganizeItem.id)) ∧
    1 < danglingItems.length ∧
    (∀ it ∈ danglingItems,
      (computeEffectiveLevels danglingItems danglingEdges oneColumnOpts).get it.id = some 0) :=
  ⟨by decide, by decide, by decide,
    placer_dangling_edges_all_level_zero danglingItems danglingEdges oneColumnOpts
      (by decide) (by decide) (by decide)⟩

/-- Witness for C10: concrete entities with an empty-string label (node,
factory) and a missing label (machine, network) all display their id. -/
theorem get_label_empty_falls_back_to_id_witness :
    (CanvasNode.mk "n1" "default" "" (some "") 0 0 1 1 [] [] none).get_label = "n1" ∧
    (CanvasMachine.mk "m1" none none [] none).get_label = "m1" ∧
    (CanvasFactory.mk "f1" (some "") none [] none).get_label = "f1" ∧
    (CanvasNetwork.mk "nw1" none none []).get_label = "nw1" :=
  ⟨(get_label_empty_falls_back_to_id (CanvasNode.mk "n1" "default" "" (some "") 0 0 1 1 [] [] none)
      (CanvasMachine.mk "m1" none none [] none)
      (CanvasFactory.mk "f1" (some "") none [] none)
      (CanvasNetwork.mk "nw1" none none [])).1 (Or.inr rfl),
   (get_label_empty_falls_back_to_id (CanvasNode.mk "n1" "default" "" (some "") 0 0 1 1 [] [] none)
      (CanvasMachine.mk "m1" none none [] none)
      (CanvasFactory.mk "f1" (some "") none [] none)
      (CanvasNetwork.mk "nw1" none none [])).2.1 (Or.inl rfl),
   (get_label_empty_falls_back_to_id (CanvasNode.mk "n1" "default" "" (some "") 0 0 1 1 [] [] none)
      (CanvasMachine.mk "m1" none none [] none)
      (CanvasFactory.mk "f1" (some "") none [] none)
      (CanvasNetwork.mk "nw1" none none [])).2.2.1 (Or.inr rfl),
   (get_label_empty_falls_back_to_id (CanvasNode.mk "n1" "default" "" (some "") 0 0 1 1 [] [] none)
      (CanvasMachine.mk "m1" none none [] none)
      (CanvasFactory.mk "f1" (some "") none [] none)
      (CanvasNetwork.mk "nw1" none none [])).2.2.2 (Or.inl rfl)⟩

-- ---------------------------------------------------------------------------
-- Claim C5 (amended): displacement cap from integer pass-start positions
-- ---------------------------------------------------------------------------

theorem pyround_of_isInt {q : ℚ} (h : IsIntQ q) : ((pyround q : ℤ) : ℚ) = q := by
  obtain ⟨n, rfl⟩ := h
  rw [pyround_intCast]

theorem clampNudge_bound (orig : ℚ) (node : CanvasNode) (shift0 s : ℚ)
    (h : clampNudge orig node shift0 = some s)
    (hb : |node.y - orig| ≤ MAX_NUDGE_DISPLACEMENT) :
    |node.y + s - orig| ≤ MAX_NUDGE_DISPLACEMENT := by
  unfold clampNudge MAX_NUDGE_DISPLACEMENT at *
  rw [abs_le] at hb
  split at h
  · split at h
    all_goals split at h
    all_goals try exact Option.noConfusion h
    all_goals
      rw [Option.some.injEq] at h
      rw [← h, abs_le]
      rcases abs_cases (node.y - orig) with ⟨he, hs⟩ | ⟨he, hs⟩ <;>
        rw [he] <;> constructor <;> linarith [hb.1, hb.2]
  · rw [Option.some.injEq] at h
    rw [← h, abs_le]
    rename_i hnc
    push_neg at hnc
    rw [abs_le] at hnc
    exact hnc

theorem computeNudgeShift_s_bound (cl orig : ℚ) (node : CanvasNode)
    (path : List _BezierSegment) (d s : ℚ)
    (h : computeNudgeShift cl orig node path = some (d, s))
    (hb : |node.y - orig| ≤ MAX_NUDGE_DISPLACEMENT) :
    |node.y + s - orig| ≤ MAX_NUDGE_DISPLACEMENT := by
  unfold computeNudgeShift at h
  dsimp only at h
  split at h
  · exact absurd h (by simp)
  · split at h
    · exact absurd h (by simp)
    · split at h
      · exact absurd h (by simp)
      · rename_i shift heq
        rw [Option.some.injEq, Prod.mk.injEq] at h
        rw [← h.2]
        exact clampNudge_bound orig node _ shift heq hb

theorem nudged_y_bound (orig v : ℚ) (ho : IsIntQ orig)
    (hv : |v - orig| ≤ MAX_NUDGE_DISPLACEMENT) :
    |((pyround v : ℤ) : ℚ) - orig| ≤ MAX_NUDGE_DISPLACEMENT := by
  have htri := abs_sub_le ((pyround v : ℤ) : ℚ) v orig
  have hr := pyround_sub_le v
  have h2 : |((pyround v : ℤ) : ℚ) - orig| ≤ ((400 : ℤ) : ℚ) + 1/2 := by
    unfold MAX_NUDGE_DISPLACEMENT at hv
    push_cast
    linarith
  have h3 := int_gap_absorb ⟨pyround v, rfl⟩ ho h2
  unfold MAX_NUDGE_DISPLACEMENT
  push_cast at h3 ⊢
  linarith

theorem all_nodes_mapNodes (c : Canvas) (f : CanvasNode → CanvasNode) :
    (c.mapNodes f).all_nodes = c.all_nodes.map f := by
  unfold Canvas.mapNodes Canvas.all_nodes
  simp [List.flatMap_map, List.map_flatMap, Function.comp_def]

theorem foldl_set_key_get_absent {α ν : Type} (key : α → String) (val : α → ν)
    (l : List α) (k : String) (hk : k ∉ l.map key) (d0 : PyDict String ν) :
    (l.foldl (fun d x => d.set (key x) (val x)) d0).get k = d0.get k := by
  induction l generalizing d0 with
  | nil => rfl
  | cons a rest ih =>
    simp only [List.map_cons, List.mem_cons] at hk
    push_neg at hk
    rw [List.foldl_cons, ih hk.2, PyDict.get_set_ne _ _ _ _ hk.1]

theorem foldl_set_key_get_nodup {α ν : Type} (key : α → String) (val : α → ν)
    (l : List α) (hnodup : (l.map key).Nodup) (d0 : PyDict String ν)
    (a : α) (ha : a ∈ l) :
    (l.foldl (fun d x => d.set (key x) (val x)) d0).get (key a) = some (val a) := by
  induction l generalizing d0 with
  | nil => cases ha
  | cons b rest ih =>
    rw [List.map_cons, List.nodup_cons] at hnodup
    rw [List.foldl_cons]
    rcases List.mem_cons.mp ha with rfl | hmem
    · rw [foldl_set_key_get_absent key val rest _ hnodup.1, PyDict.get_set_self]
    · exact ih hnodup.2 _ hmem

theorem foldl_set_key_get_mem {α ν : Type} (key : α → String) (val : α → ν)
    (l : List α) (d0 : PyDict String ν) (k : String) (v : ν)
    (h : (l.foldl (fun d x => d.set (key x) (val x)) d0).get k = some v) :
    d0.get k = some v ∨ ∃ x ∈ l, key x = k ∧ val x = v := by
  induction l generalizing d0 with
  | nil => exact Or.inl h
  | cons a rest ih =>
    rw [List.foldl_cons] at h
    rcases ih _ h with h0 | ⟨x, hx, hk, hv⟩
    · by_cases hka : k = key a
      · subst hka
        rw [PyDict.get_set_self] at h0
        exact Or.inr ⟨a, by simp, rfl, (Option.some.injEq _ _).mp h0⟩
      · rw [PyDict.get_set_ne _ _ _ _ hka] at h0
        exact Or.inl h0
    · exact Or.inr ⟨x, by simp [hx], hk, hv⟩

theorem getNodeById_mem (c : Canvas) (id0 : String) (n : CanvasNode)
    (h : c.getNodeById id0 = some n) : n ∈ c.all_nodes ∧ n.id = id0 := by
  unfold Canvas.getNodeById at h
  rcases foldl_set_key_get_mem CanvasNode.id (fun x => x) c.all_nodes [] id0 n h
    with h0 | ⟨x, hx, hk, hv⟩
  · simp [PyDict.get, List.find?] at h0
  · subst hv
    exact ⟨hx, hk⟩

theorem eq_of_mem_nodup_key {α : Type} (key : α → String) (l : List α)
    (h : (l.map key).Nodup) (a b : α) (ha : a ∈ l) (hb : b ∈ l)
    (hk : key a = key b) : a = b := by
  induction l with
  | nil => cases ha
  | cons c rest ih =>
    rw [List.map_cons, List.nodup_cons] at h
    rcases List.mem_cons.mp ha with rfl | ha2 <;> rcases List.mem_cons.mp hb with rfl | hb2
    · rfl
    · exact absurd (List.mem_map.mpr ⟨b, hb2, hk.symm⟩) h.1
    · exact absurd (List.mem_map.mpr ⟨a, ha2, hk⟩) h.1
    · exact ih h.2 ha2 hb2

theorem YWithin_updateNodeY (origd : PyDict String ℚ) (c : Canvas)
    (id0 : String) (v : ℚ) (hc : YWithin origd c)
    (hv : ∀ o, origd.get id0 = some o → |v - o| ≤ MAX_NUDGE_DISPLACEMENT) :
    YWithin origd (updateNodeY c id0 v) := by
  intro n hn
  unfold updateNodeY at hn
  rw [all_nodes_mapNodes] at hn
  rcases List.mem_map.mp hn with ⟨m, hm, rfl⟩
  rcases hc m hm with ⟨o, ho1, ho2, ho3⟩
  by_cases hid : m.id = id0
  · rw [if_pos hid]
    exact ⟨o, by simpa [hid] using ho1, ho2, by
      have := hv o (hid ▸ ho1)
      simpa using this⟩
  · rw [if_neg hid]
    exact ⟨o, ho1, ho2, ho3⟩

theorem avoidSiblingStep_YWithin (oy : PyDict String ℚ) (nid : String) (d s ny : ℚ)
    (st : AvoidState) (sib : String) (hc : YWithin oy st.canvas) :
    YWithin oy (avoidSiblingStep oy nid d s ny st sib).canvas := by
  unfold avoidSiblingStep
  split
  · exact hc
  split
  · exact hc
  split
  · exact hc
  rename_i sibling heq
  show YWithin oy
    (if |sibling.y + s - oy.getD sibling.id sibling.y| > MAX_NUDGE_DISPLACEMENT then st
      else if d > 0 ∧ sibling.y ≥ ny - s then
        AvoidState.mk (updateNodeY st.canvas sibling.id ((pyround (sibling.y + s) : ℤ) : ℚ))
          (st.nudged ++ [sibling.id]) st.total
      else if d < 0 ∧ sibling.y ≤ ny - s then
        AvoidState.mk (updateNodeY st.canvas sibling.id ((pyround (sibling.y + s) : ℤ) : ℚ))
          (st.nudged ++ [sibling.id]) st.total
      else st).canvas
  obtain ⟨hmem, -⟩ := getNodeById_mem st.canvas sib sibling heq
  obtain ⟨o, ho1, ho2, ho3⟩ := hc sibling hmem
  have hgd : oy.getD sibling.id sibling.y = o := by
    unfold PyDict.getD
    rw [ho1]
    rfl
  rw [hgd]
  split
  · exact hc
  rename_i hcap
  push_neg at hcap
  have hv : ∀ o2, oy.get sibling.id = some o2 →
      |((pyround (sibling.y + s) : ℤ) : ℚ) - o2| ≤ MAX_NUDGE_DISPLACEMENT := by
    intro o2 ho2'
    rw [ho1, Option.some.injEq] at ho2'
    subst ho2'
    exact nudged_y_bound o (sibling.y + s) ho2 hcap
  split
  · exact YWithin_updateNodeY oy st.canvas sibling.id _ hc hv
  split
  · exact YWithin_updateNodeY oy st.canvas sibling.id _ hc hv
  · exact hc

theorem applyNudge_YWithin (oy : PyDict String ℚ) (ntm : PyDict String String)
    (mn : PyDict String (List String)) (node_id : String) (d s ny : ℚ)
    (st : AvoidState) (hc : YWithin oy st.canvas)
    (hv : ∀ o, oy.get node_id = some o →
      |((pyround (ny + s) : ℤ) : ℚ) - o| ≤ MAX_NUDGE_DISPLACEMENT) :
    YWithin oy (applyNudge oy ntm mn node_id d s ny st).canvas := by
  unfold applyNudge
  split
  · exact YWithin_updateNodeY oy st.canvas node_id _ hc hv
  · refine foldlPreserves (fun a : AvoidState => YWithin oy a.canvas) _ _
      (fun a b ha => ?_) _ (YWithin_updateNodeY oy st.canvas node_id _ hc hv)
    show YWithin oy (avoidSiblingStep _ _ _ _ _ a b).canvas
    exact avoidSiblingStep_YWithin _ _ _ _ _ a b ha

theorem avoidNodeStep_YWithin (cl : ℚ) (oy : PyDict String ℚ)
    (ntm : PyDict String String) (mn : PyDict String (List String))
    (src_id dst_id : String) (path : List _BezierSegment)
    (st : AvoidState) (node_id : String) (hc : YWithin oy st.canvas) :
    YWithin oy (avoidNodeStep cl oy ntm mn src_id dst_id path st node_id).canvas := by
  unfold avoidNodeStep
  split
  · exact hc
  split
  · exact hc
  split
  · exact hc
  rename_i node heq
  split
  · split
    · exact hc
    rename_i ds hcs
    obtain ⟨d1, s1⟩ := ds
    obtain ⟨hmem, -⟩ := getNodeById_mem st.canvas node_id node heq
    obtain ⟨o, ho1, ho2, ho3⟩ := hc node hmem
    have hgd : oy.getD node.id node.y = o := by
      unfold PyDict.getD
      rw [ho1]
      rfl
    rw [hgd] at hcs
    have hsb := computeNudgeShift_s_bound cl o node path d1 s1 hcs ho3
    refine applyNudge_YWithin oy ntm mn node.id d1 s1 node.y st hc ?_
    intro o2 ho2'
    rw [ho1, Option.some.injEq] at ho2'
    subst ho2'
    exact nudged_y_bound o (node.y + s1) ho2 hsb
  · exact hc

theorem avoidConnStep_YWithin (cl : ℚ) (ids : List String) (oy : PyDict String ℚ)
    (ntm : PyDict String String) (mn : PyDict String (List String))
    (st : AvoidState) (conn : String × String) (hc : YWithin oy st.canvas) :
    YWithin oy (avoidConnStep cl ids oy ntm mn st conn).canvas := by
  unfold avoidConnStep
  repeat' split
  all_goals try exact hc
  all_goals
    exact foldlPreserves (fun a : AvoidState => YWithin oy a.canvas) _ _
      (fun a b ha => by
        show YWithin oy (avoidNodeStep _ _ _ _ _ _ _ a b).canvas
        exact avoidNodeStep_YWithin _ _ _ _ _ _ _ a b ha) _ hc

theorem avoidPass_YWithin (cl : ℚ) (conns : List (String × String)) (ids : List String)
    (oy : PyDict String ℚ) (ntm : PyDict String String) (mn : PyDict String (List String))
    (canvas : Canvas) (total : ℕ) (hc : YWithin oy canvas) :
    YWithin oy (avoidPass cl conns ids oy ntm mn canvas total).canvas := by
  unfold avoidPass
  exact foldlPreserves (fun a : AvoidState => YWithin oy a.canvas) _ _
    (fun a b ha => by
      show YWithin oy (avoidConnStep _ _ _ _ _ a b).canvas
      exact avoidConnStep_YWithin _ _ _ _ _ a b ha) _ hc

theorem avoidLoop_YWithin (cl : ℚ) (conns : List (String × String)) (ids : List String)
    (oy : PyDict String ℚ) (ntm : PyDict String String) (mn : PyDict String (List String))
    (fuel : ℕ) (canvas : Canvas) (total : ℕ) (hc : YWithin oy canvas) :
    YWithin oy (avoidLoop cl conns ids oy ntm mn fuel canvas total).1 := by
  induction fuel generalizing canvas total with
  | zero => exact hc
  | succ k ih =>
    show YWithin oy
      (if (avoidPass cl conns ids oy ntm mn canvas total).nudged.isEmpty = true then
        ((avoidPass cl conns ids oy ntm mn canvas total).canvas,
          (avoidPass cl conns ids oy ntm mn canvas total).total)
      else avoidLoop cl conns ids oy ntm mn k
        (avoidPass cl conns ids oy ntm mn canvas total).canvas
        (avoidPass cl conns ids oy ntm mn canvas total).total).1
    split
    · exact avoidPass_YWithin cl conns ids oy ntm mn canvas total hc
    · exact ih _ _ (avoidPass_YWithin cl conns ids oy ntm mn canvas total hc)

theorem isIntQ_of_den_one {q : ℚ} (h : q.den = 1) : IsIntQ q :=
  ⟨q.num, ((Rat.den_eq_one_iff q).mp h).symm⟩

theorem YWithin_init (canvas : Canvas)
    (hnodup : (canvas.all_nodes.map CanvasNode.id).Nodup)
    (hint : ∀ n ∈ canvas.all_nodes, IsIntQ n.y) :
    YWithin (canvas.all_nodes.foldl (fun d n => d.set n.id n.y) []) canvas := by
  intro n hn
  refine ⟨n.y, ?_, hint n hn, by rw [sub_self, abs_zero]; unfold MAX_NUDGE_DISPLACEMENT; norm_num⟩
  exact foldl_set_key_get_nodup CanvasNode.id CanvasNode.y canvas.all_nodes hnodup [] n hn

/-- C5 (amended): when every node id is unique and every node starts on an
integer y — the usual situation, since the placer emits integer-rounded
positions — the Avoider keeps every node within `MAX_NUDGE_DISPLACEMENT`
of its pass-start y.  Only a fractional starting y (as in the recorded
counterexample) can push the final rounding past the cap, and then by less
than half a pixel. -/
theorem avoider_displacement_cap (canvas : Canvas) (clearance : ℚ) (max_iterations : ℕ)
    (hnodup : (canvas.all_nodes.map CanvasNode.id).Nodup)
    (hint : ∀ n ∈ canvas.all_nodes, IsIntQ n.y) :
    ∀ nf ∈ (_avoid_connectors canvas clearance max_iterations).1.all_nodes,
      ∀ n0 ∈ canvas.all_nodes, n0.id = nf.id →
        |nf.y - n0.y| ≤ MAX_NUDGE_DISPLACEMENT := by
  intro nf hnf n0 hn0 hid
  have h400 : (0 : ℚ) ≤ MAX_NUDGE_DISPLACEMENT := by
    unfold MAX_NUDGE_DISPLACEMENT; norm_num
  revert hnf
  show nf ∈ (if canvas.all_connections.isEmpty = true ∨ canvas.all_nodes.length < 3
      then (canvas, 0)
      else avoidLoop clearance canvas.all_connections (canvas.all_nodes.map CanvasNode.id)
        (canvas.all_nodes.foldl (fun d n => d.set n.id n.y) [])
        (_build_node_to_machine_map canvas) (machineNodeIds canvas)
        max_iterations canvas 0).1.all_nodes →
    |nf.y - n0.y| ≤ MAX_NUDGE_DISPLACEMENT
  split
  · intro hnf
    have heq : n0 = nf :=
      eq_of_mem_nodup_key CanvasNode.id canvas.all_nodes hnodup n0 nf hn0 hnf hid
    rw [heq, sub_self, abs_zero]
    exact h400
  · intro hnf
    have hw := avoidLoop_YWithin clearance canvas.all_connections
      (canvas.all_nodes.map CanvasNode.id)
      (canvas.all_nodes.foldl (fun d n => d.set n.id n.y) [])
      (_build_node_to_machine_map canvas) (machineNodeIds canvas)
      max_iterations canvas 0 (YWithin_init canvas hnodup hint)
    obtain ⟨o, ho1, -, ho3⟩ := hw nf hnf
    have ho0 : (canvas.all_nodes.foldl
          (fun (d : PyDict String ℚ) n => d.set n.id n.y) []).get n0.id
        = some n0.y :=
      foldl_set_key_get_nodup CanvasNode.id CanvasNode.y canvas.all_nodes hnodup [] n0 hn0
    rw [hid, ho1, Option.some.injEq] at ho0
    rw [ho0] at ho3
    exact ho3

/-- Witness for the amended C5 theorem: the integer-start copy of the
counterexample canvas satisfies both hypotheses, and the cap holds on it. -/
theorem avoider_displacement_cap_witness :
    ((integerStartCanvas.all_nodes.map CanvasNode.id).Nodup ∧
      ∀ n ∈ integerStartCanvas.all_nodes, IsIntQ n.y) ∧
    ∀ nf ∈ (_avoid_connectors integerStartCanvas CONNECTOR_CLEARANCE
        MAX_NUDGE_ITERATIONS).1.all_nodes,
      ∀ n0 ∈ integerStartCanvas.all_nodes, n0.id = nf.id →
        |nf.y - n0.y| ≤ MAX_NUDGE_DISPLACEMENT := by
  have hnodup : (integerStartCanvas.all_nodes.map CanvasNode.id).Nodup := by
    with_unfolding_all decide
  have hden : ∀ n ∈ integerStartCanvas.all_nodes, n.y.den = 1 := by
    with_unfolding_all decide
  have hint : ∀ n ∈ integerStartCanvas.all_nodes, IsIntQ n.y :=
    fun n hn => isIntQ_of_den_one (hden n hn)
  exact ⟨⟨hnodup, hint⟩,
    avoider_displacement_cap integerStartCanvas CONNECTOR_CLEARANCE MAX_NUDGE_ITERATIONS
      hnodup hint⟩

theorem consecGapY_append (g : ℚ) (l : List (OrganizeItem × LayoutPosition))
    (x : OrganizeItem × LayoutPosition) (hl : ConsecGapY g l = true)
    (hlast : ∀ a, l.getLast? = some a → g ≤ x.2.y - (a.2.y + a.1.height)) :
    ConsecGapY g (l ++ [x]) = true := by
  induction l with
  | nil => rfl
  | cons a rest ih =>
    cases rest with
    | nil =>
      have hx := hlast a (by simp)
      simp [ConsecGapY, hx]
    | cons b rest2 =>
      simp only [ConsecGapY, Bool.and_eq_true, decide_eq_true_eq] at hl
      have h2 := ih hl.2 (fun c hc => hlast c (by rw [List.getLast?_cons_cons]; exact hc))
      show ConsecGapY g (a :: b :: (rest2 ++ [x])) = true
      simp only [ConsecGapY, Bool.and_eq_true, decide_eq_true_eq]
      exact ⟨hl.1, h2⟩

theorem consecGapX_append (g : ℚ) (l : List (OrganizeItem × LayoutPosition))
    (x : OrganizeItem × LayoutPosition) (hl : ConsecGapX g l = true)
    (hlast : ∀ a, l.getLast? = some a → g ≤ x.2.x - (a.2.x + a.1.width)) :
    ConsecGapX g (l ++ [x]) = true := by
  induction l with
  | nil => rfl
  | cons a rest ih =>
    cases rest with
    | nil =>
      have hx := hlast a (by simp)
      simp [ConsecGapX, hx]
    | cons b rest2 =>
      simp only [ConsecGapX, Bool.and_eq_true, decide_eq_true_eq] at hl
      have h2 := ih hl.2 (fun c hc => hlast c (by rw [List.getLast?_cons_cons]; exact hc))
      show ConsecGapX g (a :: b :: (rest2 ++ [x])) = true
      simp only [ConsecGapX, Bool.and_eq_true, decide_eq_true_eq]
      exact ⟨hl.1, h2⟩

theorem hDesiredTop_ge (v pb : ℚ) (e : PlEntry) :
    pb + v ≤ hDesiredTop v (some pb) e := by
  show pb + v ≤ if e.target_center - e.item.height / 2 < pb + v then pb + v
    else e.target_center - e.item.height / 2
  split
  · exact le_refl _
  · rename_i hlt
    push_neg at hlt
    exact hlt

theorem placeEntryH_inv (v g cx : ℚ) (hg : g + 1/2 ≤ v) (st : HPlaceState) (e : PlEntry)
    (hinv : HPlaceInv g st) : HPlaceInv g (placeEntryH v cx st e) := by
  obtain ⟨h1, h2, h3⟩ := hinv
  have hP : placeEntryH v cx st e = HPlaceState.mk
      (st.layout.set e.item.id (LayoutPosition.mk ((pyround cx : ℤ) : ℚ)
        ((pyround (hDesiredTop v st.previous_bottom e) : ℤ) : ℚ)))
      (some (((pyround (hDesiredTop v st.previous_bottom e) : ℤ) : ℚ) + e.item.height))
      (st.placed ++ [(e.item, LayoutPosition.mk ((pyround cx : ℤ) : ℚ)
        ((pyround (hDesiredTop v st.previous_bottom e) : ℤ) : ℚ))]) := rfl
  rw [hP]
  refine ⟨?_, ?_, ?_⟩
  · refine consecGapY_append g st.placed _ h1 ?_
    intro a ha
    cases hpb : st.previous_bottom with
    | none =>
      rw [h2 hpb] at ha
      exact absurd ha (by simp)
    | some pb =>
      have hle := h3 pb a hpb ha
      have hdt := hDesiredTop_ge v pb e
      have hrd := pyround_ge (hDesiredTop v (some pb) e)
      show g ≤ ((pyround (hDesiredTop v (some pb) e) : ℤ) : ℚ) - (a.2.y + a.1.height)
      linarith
  · intro h
    exact Option.noConfusion h
  · intro pb a hpb' ha'
    dsimp only at hpb' ha'
    rw [List.getLast?_concat, Option.some.injEq] at ha'
    rw [Option.some.injEq] at hpb'
    rw [← ha', ← hpb']

theorem placeLevelH_inv (edges : List OrganizeEdge) (item_map : PyDict String OrganizeItem)
    (v h g : ℚ) (grouped : PyDict ℕ (List OrganizeItem)) (hg : g + 1/2 ≤ v)
    (st : HLevelState) (level : ℕ) (hinv : HLevelInv g st) :
    HLevelInv g (placeLevelH edges item_map v h grouped st level) := by
  unfold placeLevelH
  show HLevelInv g
    (if (grouped.getD level []).isEmpty = true then st
      else
        HLevelState.mk
          (List.foldl (placeEntryH v st.current_x) (HPlaceState.mk st.layout none [])
            (pySort entryLe (buildEntries edges item_map st.layout
              (grouped.getD level [])))).layout
          (st.current_x + qmaxList (List.map OrganizeItem.width (grouped.getD level [])) + h)
          (st.orders ++
            [(List.foldl (placeEntryH v st.current_x) (HPlaceState.mk st.layout none [])
              (pySort entryLe (buildEntries edges item_map st.layout
                (grouped.getD level [])))).placed]))
  split
  · exact hinv
  intro c hc
  rcases List.mem_append.mp hc with hcl | hcr
  · exact hinv c hcl
  · rw [List.mem_singleton] at hcr
    subst hcr
    refine (foldlPreserves (HPlaceInv g) (placeEntryH v st.current_x) _
      (fun a b ha => placeEntryH_inv v g st.current_x hg a b ha) _ ?_).1
    exact ⟨rfl, fun _ => rfl, fun pb a hpb ha => absurd ha (by simp)⟩

theorem placeRowV_inv (h cy g : ℚ) (hg : g + 1 ≤ h) (acc : VRowState) (item : OrganizeItem)
    (hinv : VRowInv g h acc) : VRowInv g h (placeRowV h cy acc item) := by
  obtain ⟨h1, h2⟩ := hinv
  have hP : placeRowV h cy acc item = VRowState.mk
      (acc.layout.set item.id (LayoutPosition.mk ((pyround acc.cursor_x : ℤ) : ℚ)
        ((pyround cy : ℤ) : ℚ)))
      (acc.cursor_x + item.width + h) (max acc.row_height item.height)
      (acc.placed ++ [(item, LayoutPosition.mk ((pyround acc.cursor_x : ℤ) : ℚ)
        ((pyround cy : ℤ) : ℚ))]) := rfl
  rw [hP]
  refine ⟨?_, ?_⟩
  · refine consecGapX_append g acc.placed _ h1 ?_
    intro a ha
    have hle := h2 a ha
    have hrd := pyround_ge acc.cursor_x
    show g ≤ ((pyround acc.cursor_x : ℤ) : ℚ) - (a.2.x + a.1.width)
    linarith
  · intro a ha
    dsimp only at ha
    rw [List.getLast?_concat, Option.some.injEq] at ha
    rw [← ha]
    have hrd := pyround_le acc.cursor_x
    show ((pyround acc.cursor_x : ℤ) : ℚ) + item.width + h - 1/2 ≤
      acc.cursor_x + item.width + h
    linarith

theorem placeLevelV_inv (h v rcx g : ℚ) (grouped : PyDict ℕ (List OrganizeItem))
    (hg : g + 1 ≤ h) (st : VLevelState) (level : ℕ) (hinv : VLevelInv g st) :
    VLevelInv g (placeLevelV h v rcx grouped st level) := by
  unfold placeLevelV
  show VLevelInv g
    (if (pySort itemLeXId (grouped.getD level [])).isEmpty = true then st
      else
        VLevelState.mk
          (List.foldl (placeRowV h st.current_y)
            (VRowState.mk st.layout
              (rcx - ((List.map OrganizeItem.width (pySort itemLeXId (grouped.getD level []))).sum
                + (((pySort itemLeXId (grouped.getD level [])).length : ℚ) - 1) * h) / 2)
              0 [])
            (pySort itemLeXId (grouped.getD level []))).layout
          (st.current_y + (List.foldl (placeRowV h st.current_y)
            (VRowState.mk st.layout
              (rcx - ((List.map OrganizeItem.width (pySort itemLeXId (grouped.getD level []))).sum
                + (((pySort itemLeXId (grouped.getD level [])).length : ℚ) - 1) * h) / 2)
              0 [])
            (pySort itemLeXId (grouped.getD level []))).row_height + v)
          (st.orders ++ [(List.foldl (placeRowV h st.current_y)
            (VRowState.mk st.layout
              (rcx - ((List.map OrganizeItem.width (pySort itemLeXId (grouped.getD level []))).sum
                + (((pySort itemLeXId (grouped.getD level [])).length : ℚ) - 1) * h) / 2)
              0 [])
            (pySort itemLeXId (grouped.getD level []))).placed]))
  split
  · exact hinv
  intro c hc
  rcases List.mem_append.mp hc with hcl | hcr
  · exact hinv c hcl
  · rw [List.mem_singleton] at hcr
    subst hcr
    refine (foldlPreserves (VRowInv g h) (placeRowV h st.current_y) _
      (fun a b ha => placeRowV_inv h st.current_y g hg a b ha) _ ?_).1
    exact ⟨rfl, fun a ha => absurd ha (by simp)⟩

/-- C6: every column (horizontal orientation) and every row (vertical
orientation) that the flat placer lays out keeps consecutive items
separated on the cross axis by at least the configured spacing minus 1
(integer rounding loses at most half a pixel on each side): horizontally,
each next item's top clears the previous item's bottom by at least
`vertical_spacing - 1`; vertically, each next item's left edge clears the
previous item's right edge by at least `horizontal_spacing - 1`. -/
theorem placer_intra_level_spacing (items : List OrganizeItem) (edges : List OrganizeEdge)
    (opts : OrganizeOptions) (col : List (OrganizeItem × LayoutPosition))
    (hcol : col ∈ (compute_organized_layoutWithOrders items edges (some opts)).2) :
    (opts.orientation = "horizontal" →
      ConsecGapY (opts.vertical_spacing - 1) col = true) ∧
    (opts.orientation ≠ "horizontal" →
      ConsecGapX (opts.horizontal_spacing - 1) col = true) := by
  unfold compute_organized_layoutWithOrders at hcol
  split at hcol
  · exact absurd hcol (by simp)
  · dsimp only [Option.getD] at hcol
    rcases eq_or_ne opts.orientation "horizontal" with hor | hor
    · rw [if_pos hor] at hcol
      dsimp only at hcol
      refine ⟨fun _ => ?_, fun hne => absurd hor hne⟩
      refine foldlPreserves (HLevelInv (opts.vertical_spacing - 1)) _ _
        (fun a b ha => placeLevelH_inv _ _ _ _ _ _ (by linarith) a b ha) _ ?_ col hcol
      exact fun c hc => absurd hc (by simp)
    · rw [if_neg hor] at hcol
      dsimp only at hcol
      refine ⟨fun h => absurd h hor, fun _ => ?_⟩
      refine foldlPreserves (VLevelInv (opts.horizontal_spacing - 1)) _ _
        (fun a b ha => placeLevelV_inv _ _ _ _ _ (by linarith) a b ha) _ ?_ col hcol
      exact fun c hc => absurd hc (by simp)

/-- Witness for the C6 spacing theorem: on the fan-out input the recorded
level-1 column holds `a` and `b`, and the gap bound holds on it. -/
theorem placer_intra_level_spacing_witness :
    spacedCol ∈ (compute_organized_layoutWithOrders spacedItems spacedEdges
        (some defaultOrganizeOptions)).2 ∧
    ((defaultOrganizeOptions.orientation = "horizontal" →
      ConsecGapY (defaultOrganizeOptions.vertical_spacing - 1) spacedCol = true) ∧
    (defaultOrganizeOptions.orientation ≠ "horizontal" →
      ConsecGapX (defaultOrganizeOptions.horizontal_spacing - 1) spacedCol = true)) :=
  ⟨by with_unfolding_all decide,
   placer_intra_level_spacing spacedItems spacedEdges defaultOrganizeOptions spacedCol
     (by with_unfolding_all decide)⟩

theorem kahnLoopG_fst (adj : PyDict String (List String)) (fuel : ℕ)
    (s : KahnState) (proc : List String) :
    (kahnLoopG adj fuel (s, proc)).1 = kahnLoop adj fuel s := by
  induction fuel generalizing s proc with
  | zero => rfl
  | succ k ih =>
    obtain ⟨lv, ind, q⟩ := s
    cases q with
    | nil => rfl
    | cons current rest =>
      show (kahnLoopG adj k (processTargets (PyDict.getD lv current 0)
          (adj.getD current []) (KahnState.mk lv ind rest), proc ++ [current])).1
        = kahnLoop adj k (processTargets (PyDict.getD lv current 0)
          (adj.getD current []) (KahnState.mk lv ind rest))
      exact ih _ _

theorem adjInto_append (adj : PyDict String (List String)) (l1 l2 : List String)
    (v : String) : adjInto adj (l1 ++ l2) v = adjInto adj l1 v + adjInto adj l2 v := by
  unfold adjInto
  rw [List.map_append, List.sum_append]

theorem adjInto_nonneg (adj : PyDict String (List String)) (l : List String) (v : String) :
    0 ≤ adjInto adj l v := by
  unfold adjInto
  apply List.sum_nonneg
  intro x hx
  rcases List.mem_map.mp hx with ⟨u, hu, rfl⟩
  exact Int.ofNat_nonneg _

theorem adjInto_pos_exists (adj : PyDict String (List String)) (l : List String)
    (v : String) (h : 0 < adjInto adj l v) : ∃ u ∈ l, v ∈ adj.getD u [] := by
  by_contra hc
  push_neg at hc
  have hz : adjInto adj l v = 0 := by
    unfold adjInto
    apply List.sum_eq_zero
    intro x hx
    rcases List.mem_map.mp hx with ⟨u, hu, rfl⟩
    rw [List.count_eq_zero.mpr (hc u hu)]
    rfl
  rw [hz] at h
  exact lt_irrefl 0 h

theorem map_sum_update (f f2 : String → ℤ) (l : List String) (u : String)
    (hnod : l.Nodup) (hu : u ∈ l) (hsame : ∀ x, x ≠ u → f2 x = f x) :
    (l.map f2).sum = (l.map f).sum + (f2 u - f u) := by
  induction l with
  | nil => cases hu
  | cons a rest ih =>
    rw [List.nodup_cons] at hnod
    rcases List.mem_cons.mp hu with rfl | hmem
    · have hrest : rest.map f2 = rest.map f :=
        List.map_congr_left (fun x hx => hsame x (fun hxu => hnod.1 (hxu ▸ hx)))
      rw [List.map_cons, List.map_cons, List.sum_cons, List.sum_cons, hrest]
      ring
    · have hau : a ≠ u := fun h => hnod.1 (h ▸ hmem)
      rw [List.map_cons, List.map_cons, List.sum_cons, List.sum_cons, hsame a hau,
        ih hnod.2 hmem]
      ring

theorem sum_map_le_of_subset (f : String → ℤ) (hf : ∀ x, 0 ≤ f x)
    (l1 l2 : List String) (hnod : l1.Nodup) (hsub : ∀ x ∈ l1, x ∈ l2) :
    (l1.map f).sum ≤ (l2.map f).sum := by
  obtain ⟨l, hperm, hsl⟩ := hnod.subperm hsub
  have h1 : (l1.map f).sum = (l.map f).sum := ((hperm.map f).sum_eq).symm
  have h2 : (l.map f).sum ≤ (l2.map f).sum := by
    apply List.Sublist.sum_le_sum (hsl.map f)
    intro a ha
    rcases List.mem_map.mp ha with ⟨x, hx, rfl⟩
    exact hf x
  linarith

theorem adjInto_le_of_subset (adj : PyDict String (List String)) (l1 l2 : List String)
    (v : String) (hnod : l1.Nodup) (hsub : ∀ x ∈ l1, x ∈ l2) :
    adjInto adj l1 v ≤ adjInto adj l2 v :=
  sum_map_le_of_subset _ (fun x => Int.ofNat_nonneg _) l1 l2 hnod hsub

theorem processOneTarget_indeg (cl : ℕ) (s : KahnState) (t v : String) :
    (processOneTarget cl s t).indeg.getD v 0
      = s.indeg.getD v 0 - if v = t then 1 else 0 := by
  show (s.indeg.set t (s.indeg.getD t 0 - 1)).getD v 0 = _
  by_cases hv : v = t
  · subst hv
    unfold PyDict.getD
    rw [PyDict.get_set_self]
    simp
  · unfold PyDict.getD
    rw [PyDict.get_set_ne _ _ _ _ hv]
    simp [hv]

theorem processOneTarget_levels_frame (cl : ℕ) (s : KahnState) (t v : String)
    (hv : v ≠ t) : (processOneTarget cl s t).levels.get v = s.levels.get v := by
  unfold processOneTarget
  cases hg : s.levels.get t with
  | none =>
    show (s.levels.set t (cl + 1)).get v = s.levels.get v
    exact PyDict.get_set_ne _ _ _ _ hv
  | some ex =>
    show (if ex < cl + 1 then s.levels.set t (cl + 1) else s.levels).get v = s.levels.get v
    split
    · exact PyDict.get_set_ne _ _ _ _ hv
    · rfl

theorem processOneTarget_levels_mono (cl : ℕ) (s : KahnState) (t v : String) (lv : ℕ)
    (h : s.levels.get v = some lv) :
    ∃ lv2, (processOneTarget cl s t).levels.get v = some lv2 ∧ lv ≤ lv2 := by
  by_cases hv : v = t
  · subst hv
    unfold processOneTarget
    rw [h]
    show ∃ lv2, (if lv < cl + 1 then s.levels.set v (cl + 1) else s.levels).get v
      = some lv2 ∧ lv ≤ lv2
    split
    · rename_i hlt
      exact ⟨cl + 1, PyDict.get_set_self _ _ _, Nat.le_of_lt hlt⟩
    · exact ⟨lv, h, le_refl lv⟩
  · exact ⟨lv, by rw [processOneTarget_levels_frame cl s t v hv, h], le_refl lv⟩

theorem processOneTarget_levels_above (cl : ℕ) (s : KahnState) (t : String) :
    ∃ lv2, (processOneTarget cl s t).levels.get t = some lv2 ∧ cl < lv2 := by
  unfold processOneTarget
  cases hg : s.levels.get t with
  | none =>
    refine ⟨cl + 1, ?_, by omega⟩
    show (s.levels.set t (cl + 1)).get t = some (cl + 1)
    exact PyDict.get_set_self _ _ _
  | some ex =>
    show ∃ lv2, (if ex < cl + 1 then s.levels.set t (cl + 1) else s.levels).get t
      = some lv2 ∧ cl < lv2
    split
    · exact ⟨cl + 1, PyDict.get_set_self _ _ _, by omega⟩
    · rename_i hex
      push_neg at hex
      exact ⟨ex, hg, by omega⟩

theorem processOneTarget_queue (cl : ℕ) (s : KahnState) (t : String) :
    (processOneTarget cl s t).queue
      = if s.indeg.getD t 0 - 1 = 0 then s.queue ++ [t] else s.queue := rfl

theorem processTargets_spec (cl : ℕ) (ts : List String) (s : KahnState) :
    (∀ v, (processTargets cl ts s).indeg.getD v 0
        = s.indeg.getD v 0 - (ts.count v : ℤ)) ∧
    (∀ v, v ∉ ts → (processTargets cl ts s).levels.get v = s.levels.get v) ∧
    (∀ v lv, s.levels.get v = some lv →
      ∃ lv2, (processTargets cl ts s).levels.get v = some lv2 ∧ lv ≤ lv2) ∧
    (∀ v ∈ ts, ∃ lv2, (processTargets cl ts s).levels.get v = some lv2 ∧ cl < lv2) ∧
    (∃ new, (processTargets cl ts s).queue = s.queue ++ new ∧ new.Nodup ∧
      ∀ x ∈ new, x ∈ ts ∧ 0 < s.indeg.getD x 0 ∧
        (processTargets cl ts s).indeg.getD x 0 ≤ 0) := by
  induction ts generalizing s with
  | nil =>
    refine ⟨fun v => by simp [processTargets], fun v hv => rfl,
      fun v lv h => ⟨lv, h, le_refl lv⟩,
      fun v hv => absurd hv (List.not_mem_nil v),
      ⟨[], by simp [processTargets], List.nodup_nil,
        fun x hx => absurd hx (List.not_mem_nil x)⟩⟩
  | cons t ts ih =>
    have hPT : processTargets cl (t :: ts) s
        = processTargets cl ts (processOneTarget cl s t) := rfl
    obtain ⟨ihacc, ihframe, ihmono, ihabove, new', hq', hnod', hfacts'⟩ :=
      ih (processOneTarget cl s t)
    have hacc : ∀ v, (processTargets cl (t :: ts) s).indeg.getD v 0
        = s.indeg.getD v 0 - ((t :: ts).count v : ℤ) := by
      intro v
      rw [hPT, ihacc v, processOneTarget_indeg, List.count_cons]
      by_cases hv : v = t
      · subst hv
        rw [if_pos rfl, if_pos (beq_self_eq_true v), Nat.cast_add, Nat.cast_one]
        ring
      · have hbv : ¬(t == v) = true := fun h => hv (beq_iff_eq.mp h).symm
        rw [if_neg hv, if_neg hbv, Nat.add_zero]
        ring
    refine ⟨hacc, ?_, ?_, ?_, ?_⟩
    · intro v hv
      rw [List.mem_cons, not_or] at hv
      rw [hPT, ihframe v hv.2, processOneTarget_levels_frame cl s t v hv.1]
    · intro v lv h
      obtain ⟨lv1, h1, hle1⟩ := processOneTarget_levels_mono cl s t v lv h
      obtain ⟨lv2, h2, hle2⟩ := ihmono v lv1 h1
      exact ⟨lv2, by rw [hPT]; exact h2, le_trans hle1 hle2⟩
    · intro v hv
      rcases List.mem_cons.mp hv with rfl | hvts
      · obtain ⟨lv1, h1, hlt1⟩ := processOneTarget_levels_above cl s v
        obtain ⟨lv2, h2, hle2⟩ := ihmono v lv1 h1
        exact ⟨lv2, by rw [hPT]; exact h2, lt_of_lt_of_le hlt1 hle2⟩
      · obtain ⟨lv2, h2, hlt2⟩ := ihabove v hvts
        exact ⟨lv2, by rw [hPT]; exact h2, hlt2⟩
    · by_cases hdeg : s.indeg.getD t 0 - 1 = 0
      · refine ⟨t :: new', ?_, ?_, ?_⟩
        · rw [hPT, hq', processOneTarget_queue, if_pos hdeg, List.append_assoc]
          rfl
        · rw [List.nodup_cons]
          refine ⟨fun hmem => ?_, hnod'⟩
          have h0 := (hfacts' t hmem).2.1
          rw [processOneTarget_indeg] at h0
          rw [if_pos rfl, hdeg] at h0
          exact lt_irrefl 0 h0
        · intro x hx
          rcases List.mem_cons.mp hx with hxt | hxnew
          · subst hxt
            refine ⟨List.mem_cons_self x ts, by omega, ?_⟩
            rw [hacc x]
            have h2 : 1 ≤ (x :: ts).count x := by
              rw [List.count_cons_self]
              omega
            have hc : 1 ≤ ((x :: ts).count x : ℤ) := by exact_mod_cast h2
            omega
          · obtain ⟨hxts, hxpos, hxfin⟩ := hfacts' x hxnew
            refine ⟨List.mem_cons_of_mem t hxts, ?_, by rw [hPT]; exact hxfin⟩
            rw [processOneTarget_indeg] at hxpos
            by_cases hxt : x = t
            · subst hxt
              rw [if_pos rfl] at hxpos
              omega
            · rw [if_neg hxt] at hxpos
              omega
      · refine ⟨new', ?_, hnod', ?_⟩
        · rw [hPT, hq', processOneTarget_queue, if_neg hdeg]
        · intro x hxnew
          obtain ⟨hxts, hxpos, hxfin⟩ := hfacts' x hxnew
          refine ⟨List.mem_cons_of_mem t hxts, ?_, by rw [hPT]; exact hxfin⟩
          rw [processOneTarget_indeg] at hxpos
          by_cases hxt : x = t
          · subst hxt
            rw [if_pos rfl] at hxpos
            omega
          · rw [if_neg hxt] at hxpos
            omega

theorem kahnStep_inv (adj : PyDict String (List String)) (indeg0 : PyDict String ℤ)
    (ids : List String) (seeds : PyDict String ℕ)
    (hids : ids.Nodup)
    (hcount : ∀ v, indeg0.getD v 0 = adjInto adj ids v)
    (htgt : ∀ u, ∀ v ∈ adj.getD u [], v ∈ ids)
    (L : PyDict String ℕ) (D : PyDict String ℤ) (current : String) (rest P : List String)
    (PT : KahnState)
    (hPT : PT = processTargets (L.getD current 0) (adj.getD current [])
      (KahnState.mk L D rest))
    (hp : KahnInv adj indeg0 ids seeds (KahnState.mk L D (current :: rest), P)) :
    KahnInv adj indeg0 ids seeds (PT, P ++ [current]) := by
  obtain ⟨inv1, inv2, inv3, inv4, inv5, inv6, inv7⟩ := hp
  dsimp only at inv1 inv2 inv3 inv4 inv5 inv6 inv7
  obtain ⟨acc, frame, mono, above, new, hq, hnodnew, hnewf⟩ :=
    processTargets_spec (L.getD current 0) (adj.getD current []) (KahnState.mk L D rest)
  rw [← hPT] at acc frame mono above hq hnewf
  dsimp only at acc frame mono above hq hnewf
  have hmemc : current ∈ P ++ current :: rest :=
    List.mem_append.mpr (Or.inr (List.mem_cons_self current rest))
  have hcur_ids : current ∈ ids := inv2 current hmemc
  have hProt : P ++ current :: rest = (P ++ [current]) ++ rest := by simp
  rw [hProt] at inv1
  obtain ⟨hP'nodup, hrest_nodup, hdisj⟩ := List.nodup_append.mp inv1
  have hold : ∀ v, v ∈ (P ++ [current]) ++ rest → v ∈ P ++ current :: rest := by
    intro v hv
    rw [hProt]
    exact hv
  have hP'sub : ∀ x ∈ P ++ [current], x ∈ ids := by
    intro x hx
    rcases List.mem_append.mp hx with hxp | hxc
    · exact inv2 x (List.mem_append.mpr (Or.inl hxp))
    · rw [List.mem_singleton] at hxc
      subst hxc
      exact hcur_ids
  have hone : ∀ v, adjInto adj [current] v = ((adj.getD current []).count v : ℤ) := by
    intro v
    unfold adjInto
    simp
  have hacc2 : ∀ v, PT.indeg.getD v 0
      = indeg0.getD v 0 - adjInto adj (P ++ [current]) v := by
    intro v
    rw [acc v, adjInto_append, hone v, inv3 v]
    ring
  have hbound : ∀ v, 0 ≤ PT.indeg.getD v 0 := by
    intro v
    rw [hacc2 v, hcount v]
    have := adjInto_le_of_subset adj (P ++ [current]) ids v hP'nodup hP'sub
    omega
  have hnotts : ∀ v ∈ P ++ current :: rest, v ∉ adj.getD current [] := by
    intro v hv hvts
    have hD0 : D.getD v 0 = 0 := inv4 v hv
    have hcnt : 0 < (adj.getD current []).count v := List.count_pos_iff.mpr hvts
    have hb := hbound v
    rw [acc v, hD0] at hb
    omega
  have hcl : L.get current = some (L.getD current 0) := by
    have h6 := inv6 current hmemc
    unfold PyDict.getD
    cases hg : L.get current with
    | none => rw [hg] at h6; simp at h6
    | some lc => rfl
  have hcurnotts : current ∉ adj.getD current [] := hnotts current hmemc
  have hPTcur : PT.levels.get current = some (L.getD current 0) := by
    rw [frame current hcurnotts]
    exact hcl
  refine ⟨?_, ?_, hacc2, ?_, ?_, ?_, ?_⟩
  · show ((P ++ [current]) ++ PT.queue).Nodup
    rw [hq]
    have hDnew : ∀ x ∈ new, 0 < D.getD x 0 := fun x hx => (hnewf x hx).2.1
    have hdisj_rest_new : rest.Disjoint new := by
      intro a ha hanew
      have hz := inv4 a (hold a (List.mem_append.mpr (Or.inr ha)))
      have hp := hDnew a hanew
      omega
    have hdisj_P'_rn : (P ++ [current]).Disjoint (rest ++ new) := by
      intro a ha harn
      rcases List.mem_append.mp harn with har | han
      · exact hdisj ha har
      · have hz := inv4 a (hold a (List.mem_append.mpr (Or.inl ha)))
        have hp := hDnew a han
        omega
    exact List.nodup_append.mpr ⟨hP'nodup,
      List.nodup_append.mpr ⟨hrest_nodup, hnodnew, hdisj_rest_new⟩, hdisj_P'_rn⟩
  · show ∀ x ∈ (P ++ [current]) ++ PT.queue, x ∈ ids
    rw [hq]
    intro x hx
    rcases List.mem_append.mp hx with hxp | hxq
    · exact hP'sub x hxp
    · rcases List.mem_append.mp hxq with hxr | hxn
      · exact inv2 x (hold x (List.mem_append.mpr (Or.inr hxr)))
      · exact htgt current x (hnewf x hxn).1
  · show ∀ v ∈ (P ++ [current]) ++ PT.queue, PT.indeg.getD v 0 = 0
    rw [hq]
    intro v hv
    have hb := hbound v
    rcases List.mem_append.mp hv with hvp | hvq
    · have hz := inv4 v (hold v (List.mem_append.mpr (Or.inl hvp)))
      have hc : 0 ≤ ((adj.getD current []).count v : ℤ) := Int.ofNat_nonneg _
      have ha := acc v
      omega
    · rcases List.mem_append.mp hvq with hvr | hvn
      · have hz := inv4 v (hold v (List.mem_append.mpr (Or.inr hvr)))
        have hc : 0 ≤ ((adj.getD current []).count v : ℤ) := Int.ofNat_nonneg _
        have ha := acc v
        omega
      · have hf := (hnewf v hvn).2.2
        omega
  · show ∀ u ∈ P ++ [current], ∀ v ∈ adj.getD u [],
      ∃ lu lv, PT.levels.get u = some lu ∧ PT.levels.get v = some lv ∧ lu < lv
    intro u hu v hv
    rcases List.mem_append.mp hu with hup | huc
    · obtain ⟨lu, lv, hLu, hLv, hlt⟩ := inv5 u hup v hv
      have hu_notts : u ∉ adj.getD current [] :=
        hnotts u (List.mem_append.mpr (Or.inl hup))
      obtain ⟨lv2, h2, hle⟩ := mono v lv hLv
      exact ⟨lu, lv2, by rw [frame u hu_notts]; exact hLu, h2, lt_of_lt_of_le hlt hle⟩
    · rw [List.mem_singleton] at huc
      subst huc
      obtain ⟨lv2, h2, hlt2⟩ := above v hv
      exact ⟨L.getD u 0, lv2, hPTcur, h2, hlt2⟩
  · show ∀ v ∈ (P ++ [current]) ++ PT.queue, (PT.levels.get v).isSome = true
    rw [hq]
    intro v hv
    have hlev : (L.get v).isSome = true ∨ v ∈ adj.getD current [] := by
      rcases List.mem_append.mp hv with hvp | hvq
      · exact Or.inl (inv6 v (hold v (List.mem_append.mpr (Or.inl hvp))))
      · rcases List.mem_append.mp hvq with hvr | hvn
        · exact Or.inl (inv6 v (hold v (List.mem_append.mpr (Or.inr hvr))))
        · exact Or.inr (hnewf v hvn).1
    rcases hlev with hsome | hvts
    · obtain ⟨lv0, hlv0⟩ := Option.isSome_iff_exists.mp hsome
      obtain ⟨lv2, h2, _⟩ := mono v lv0 hlv0
      rw [h2]
      rfl
    · obtain ⟨lv2, h2, _⟩ := above v hvts
      rw [h2]
      rfl
  · show ∀ v, indeg0.getD v 0 = 0 → PT.levels.get v = seeds.get v
    intro v hv0
    have hvnotts : v ∉ adj.getD current [] := by
      intro hvts
      have hcnt : 0 < (adj.getD current []).count v := List.count_pos_iff.mpr hvts
      have hle := adjInto_le_of_subset adj [current] ids v (List.nodup_singleton current)
        (by intro x hx; rw [List.mem_singleton] at hx; subst hx; exact hcur_ids)
      rw [hone v] at hle
      rw [hcount v] at hv0
      omega
    rw [frame v hvnotts]
    exact inv7 v hv0

theorem kahnLoopG_inv (adj : PyDict String (List String)) (indeg0 : PyDict String ℤ)
    (ids : List String) (seeds : PyDict String ℕ)
    (hids : ids.Nodup)
    (hcount : ∀ v, indeg0.getD v 0 = adjInto adj ids v)
    (htgt : ∀ u, ∀ v ∈ adj.getD u [], v ∈ ids)
    (fuel : ℕ) (p : KahnState × List String)
    (hp : KahnInv adj indeg0 ids seeds p) :
    KahnInv adj indeg0 ids seeds (kahnLoopG adj fuel p) := by
  induction fuel generalizing p with
  | zero => exact hp
  | succ k ih =>
    obtain ⟨⟨L, D, q⟩, P⟩ := p
    cases q with
    | nil => exact hp
    | cons current rest =>
      show KahnInv adj indeg0 ids seeds (kahnLoopG adj k
        (processTargets (L.getD current 0) (adj.getD current [])
          (KahnState.mk L D rest), P ++ [current]))
      exact ih _ (kahnStep_inv adj indeg0 ids seeds hids hcount htgt L D current rest P
        _ rfl hp)

theorem PyDict.isSome_get_set {κ ν : Type} [DecidableEq κ] (d : PyDict κ ν) (k k' : κ)
    (v : ν) : (((d.set k v).get k').isSome = true) ↔ (k' = k ∨ (d.get k').isSome = true) := by
  by_cases h : k' = k
  · subst h
    rw [PyDict.get_set_self]
    simp
  · rw [PyDict.get_set_ne _ _ _ _ h]
    simp [h]

theorem PyDict.getD_set_self {κ ν : Type} [DecidableEq κ] (d : PyDict κ ν) (k : κ)
    (v w : ν) : (d.set k v).getD k w = v := by
  unfold PyDict.getD
  rw [PyDict.get_set_self]
  rfl

theorem PyDict.getD_set_ne {κ ν : Type} [DecidableEq κ] (d : PyDict κ ν) (k k' : κ)
    (v w : ν) (h : k' ≠ k) : (d.set k v).getD k' w = d.getD k' w := by
  unfold PyDict.getD
  rw [PyDict.get_set_ne _ _ _ _ h]

theorem bgStep_adj_mono (st : PyDict String (List String) × PyDict String ℤ)
    (e : OrganizeEdge) (u v : String) (h : v ∈ st.1.getD u []) :
    v ∈ (bgStep st e).1.getD u [] := by
  unfold bgStep
  split
  · show v ∈ (st.1.set e.from_id ((st.1.getD e.from_id []) ++ [e.to_id])).getD u []
    by_cases hu : u = e.from_id
    · subst hu
      unfold PyDict.getD
      rw [PyDict.get_set_self]
      exact List.mem_append.mpr (Or.inl h)
    · unfold PyDict.getD
      rw [PyDict.get_set_ne _ _ _ _ hu]
      exact h
  · exact h

/-- The joint invariant of the step-1 fold: both dict domains are exactly
the item ids, recorded targets are item ids, and the indegree of every id
equals its multiplicity-weighted adjacency in-count. -/
def BGInv (ids : List String) (st : PyDict String (List String) × PyDict String ℤ) : Prop :=
  (∀ k, ((st.1.get k).isSome = true) ↔ k ∈ ids) ∧
  (∀ k, ((st.2.get k).isSome = true) ↔ k ∈ ids) ∧
  (∀ u, ∀ v ∈ st.1.getD u [], v ∈ ids) ∧
  (∀ v, st.2.getD v 0 = adjInto st.1 ids v)

theorem bgStep_inv (ids : List String) (hids : ids.Nodup)
    (st : PyDict String (List String) × PyDict String ℤ) (e : OrganizeEdge)
    (hinv : BGInv ids st) : BGInv ids (bgStep st e) := by
  obtain ⟨ha, hb, hc, hd⟩ := hinv
  unfold bgStep
  split
  · rename_i hcond
    rw [Bool.and_eq_true] at hcond
    have hfrom : e.from_id ∈ ids := (ha _).mp
      (by rw [← PyDict.contains_eq_isSome]; exact hcond.1)
    have hto : e.to_id ∈ ids := (hb _).mp
      (by rw [← PyDict.contains_eq_isSome]; exact hcond.2)
    have hgetfrom : (st.1.set e.from_id ((st.1.getD e.from_id []) ++ [e.to_id])).getD
        e.from_id [] = (st.1.getD e.from_id []) ++ [e.to_id] := by
      unfold PyDict.getD
      rw [PyDict.get_set_self]
      rfl
    have hgetne : ∀ u, u ≠ e.from_id →
        (st.1.set e.from_id ((st.1.getD e.from_id []) ++ [e.to_id])).getD u []
          = st.1.getD u [] := by
      intro u hu
      unfold PyDict.getD
      rw [PyDict.get_set_ne _ _ _ _ hu]
    refine ⟨?_, ?_, ?_, ?_⟩
    · intro k
      rw [PyDict.isSome_get_set]
      constructor
      · rintro (rfl | hk)
        · exact hfrom
        · exact (ha k).mp hk
      · intro hk
        exact Or.inr ((ha k).mpr hk)
    · intro k
      rw [PyDict.isSome_get_set]
      constructor
      · rintro (rfl | hk)
        · exact hto
        · exact (hb k).mp hk
      · intro hk
        exact Or.inr ((hb k).mpr hk)
    · intro u v hv
      by_cases hu : u = e.from_id
      · subst hu
        rw [hgetfrom] at hv
        rcases List.mem_append.mp hv with hold | hnew
        · exact hc _ v hold
        · rw [List.mem_singleton] at hnew
          subst hnew
          exact hto
      · rw [hgetne u hu] at hv
        exact hc u v hv
    · intro v
      have hc2 : ([e.to_id]).count v = if v = e.to_id then 1 else 0 := by
        rw [List.count_cons, List.count_nil]
        by_cases hv : v = e.to_id
        · rw [if_pos (by rw [hv]; exact beq_self_eq_true e.to_id), if_pos hv]
        · rw [if_neg (fun h => hv (beq_iff_eq.mp h).symm), if_neg hv]
      have hc1 : (((st.1.getD e.from_id []) ++ [e.to_id]).count v : ℤ)
          = ((st.1.getD e.from_id []).count v : ℤ) + (if v = e.to_id then 1 else 0) := by
        rw [List.count_append, hc2]
        by_cases hv : v = e.to_id
        · rw [if_pos hv, if_pos hv]
          push_cast
          ring
        · rw [if_neg hv, if_neg hv]
          push_cast
          ring
      have hsum : adjInto (st.1.set e.from_id ((st.1.getD e.from_id []) ++ [e.to_id])) ids v
          = adjInto st.1 ids v + (if v = e.to_id then 1 else 0) := by
        unfold adjInto
        rw [map_sum_update
          (fun u => ((st.1.getD u []).count v : ℤ))
          (fun u => (((st.1.set e.from_id ((st.1.getD e.from_id []) ++ [e.to_id])).getD
            u []).count v : ℤ))
          ids e.from_id hids hfrom
          (fun x hx => by simp only [hgetne x hx])]
        rw [hgetfrom, hc1]
        ring
      show (st.2.set e.to_id ((st.2.getD e.to_id 0) + 1)).getD v 0 = _
      rw [hsum]
      by_cases hv : v = e.to_id
      · rw [hv, PyDict.getD_set_self, hd e.to_id, if_pos rfl]
      · rw [PyDict.getD_set_ne _ _ _ _ _ hv, hd v, if_neg hv]
        ring
  · exact ⟨ha, hb, hc, hd⟩

theorem bgFold_inv (ids : List String) (hids : ids.Nodup) (edges : List OrganizeEdge)
    (st0 : PyDict String (List String) × PyDict String ℤ) (h0 : BGInv ids st0) :
    BGInv ids (edges.foldl bgStep st0) :=
  foldlPreserves (BGInv ids) bgStep edges (fun a b ha => bgStep_inv ids hids a b ha) st0 h0

theorem dictInit_BGInv (ids : List String) :
    BGInv ids (dictInit ids ([] : List String), dictInit ids (0 : ℤ)) := by
  refine ⟨?_, ?_, ?_, ?_⟩
  · intro k
    rw [dictInit_get]
    by_cases hk : k ∈ ids <;> simp [hk]
  · intro k
    rw [dictInit_get]
    by_cases hk : k ∈ ids <;> simp [hk]
  · intro u v hv
    rw [dictInit_getD_nil] at hv
    cases hv
  · intro v
    rw [dictInit_getD_zero]
    unfold adjInto
    symm
    apply List.sum_eq_zero
    intro x hx
    rcases List.mem_map.mp hx with ⟨u, hu, rfl⟩
    rw [dictInit_getD_nil]
    rfl

theorem buildGraph_inv (items : List OrganizeItem) (edges : List OrganizeEdge)
    (hids : (items.map OrganizeItem.id).Nodup) :
    BGInv (items.map OrganizeItem.id) (buildGraph items edges) :=
  bgFold_inv _ hids edges _ (dictInit_BGInv _)

theorem buildGraph_edge_mem (items : List OrganizeItem) (edges : List OrganizeEdge)
    (hids : (items.map OrganizeItem.id).Nodup) (e : OrganizeEdge) (he : e ∈ edges)
    (hf : e.from_id ∈ items.map OrganizeItem.id)
    (ht : e.to_id ∈ items.map OrganizeItem.id) :
    e.to_id ∈ (buildGraph items edges).1.getD e.from_id [] := by
  obtain ⟨l1, l2, rfl⟩ := List.append_of_mem he
  show e.to_id ∈ ((l1 ++ e :: l2).foldl bgStep
    (dictInit (items.map OrganizeItem.id) [], dictInit (items.map OrganizeItem.id) 0)).1.getD
      e.from_id []
  rw [List.foldl_append, List.foldl_cons]
  have hmid := bgFold_inv _ hids l1 _ (dictInit_BGInv (items.map OrganizeItem.id))
  obtain ⟨ha, hb, hc, hd⟩ := hmid
  have hstep : e.to_id ∈ (bgStep (l1.foldl bgStep
      (dictInit (items.map OrganizeItem.id) [],
        dictInit (items.map OrganizeItem.id) 0)) e).1.getD e.from_id [] := by
    unfold bgStep
    rw [if_pos]
    · show e.to_id ∈ (PyDict.set _ e.from_id (PyDict.getD _ e.from_id [] ++ [e.to_id])).getD
        e.from_id []
      unfold PyDict.getD
      rw [PyDict.get_set_self]
      exact List.mem_append.mpr (Or.inr (List.mem_singleton.mpr rfl))
    · rw [Bool.and_eq_true, PyDict.contains_eq_isSome, PyDict.contains_eq_isSome]
      exact ⟨(ha _).mpr hf, (hb _).mpr ht⟩
  exact foldlPreserves
    (fun st => e.to_id ∈ st.1.getD e.from_id []) bgStep l2
    (fun a b hap => bgStep_adj_mono a b _ _ hap) _ hstep

theorem seedInit_fold_queue (d : PyDict String ℤ) (l : List OrganizeItem)
    (st0 : PyDict String ℕ × List String) :
    (l.foldl (fun st item =>
        if d.getD item.id 0 = 0 then (st.1.set item.id 0, st.2 ++ [item.id]) else st)
      st0).2
      = st0.2 ++ (l.filter (fun it => decide (d.getD it.id 0 = 0))).map OrganizeItem.id := by
  induction l generalizing st0 with
  | nil => simp
  | cons a rest ih =>
    rw [List.foldl_cons]
    by_cases ha : d.getD a.id 0 = 0
    · rw [if_pos ha, ih]
      rw [List.filter_cons_of_pos (by simp [ha])]
      simp
    · rw [if_neg ha, ih]
      rw [List.filter_cons_of_neg (by simp [ha])]

theorem seedInit_queue (d : PyDict String ℤ) (l : List OrganizeItem) :
    (seedInit d l).2
      = (l.filter (fun it => decide (d.getD it.id 0 = 0))).map OrganizeItem.id := by
  unfold seedInit
  rw [seedInit_fold_queue]
  rfl

theorem seedInit_fold_get2 (d : PyDict String ℤ) (l : List OrganizeItem)
    (st0 : PyDict String ℕ × List String) (k : String) :
    ((l.foldl (fun st item =>
        if d.getD item.id 0 = 0 then (st.1.set item.id 0, st.2 ++ [item.id]) else st)
      st0).1).get k
      = if k ∈ (l.filter (fun it => decide (d.getD it.id 0 = 0))).map OrganizeItem.id
        then some 0 else st0.1.get k := by
  induction l generalizing st0 with
  | nil => simp
  | cons a rest ih =>
    rw [List.foldl_cons]
    by_cases ha : d.getD a.id 0 = 0
    · rw [if_pos ha, ih, List.filter_cons_of_pos (by simp [ha]), List.map_cons]
      by_cases hk : k ∈ (rest.filter (fun it => decide (d.getD it.id 0 = 0))).map
        OrganizeItem.id
      · rw [if_pos hk, if_pos (List.mem_cons_of_mem _ hk)]
      · rw [if_neg hk]
        by_cases hka : k = a.id
        · subst hka
          rw [if_pos (List.mem_cons_self _ _)]
          exact PyDict.get_set_self _ _ _
        · rw [if_neg (by rw [List.mem_cons]; push_neg; exact ⟨hka, hk⟩)]
          exact PyDict.get_set_ne _ _ _ _ hka
    · rw [if_neg ha, ih, List.filter_cons_of_neg (by simp [ha])]

theorem seedInit_get2 (d : PyDict String ℤ) (l : List OrganizeItem) (k : String) :
    (seedInit d l).1.get k
      = if k ∈ (l.filter (fun it => decide (d.getD it.id 0 = 0))).map OrganizeItem.id
        then some 0 else none := by
  unfold seedInit
  rw [seedInit_fold_get2]
  rfl

theorem kahnLoop_final (adj : PyDict String (List String)) (indeg0 : PyDict String ℤ)
    (ids : List String) (seeds : PyDict String ℕ)
    (hids : ids.Nodup)
    (hcount : ∀ v, indeg0.getD v 0 = adjInto adj ids v)
    (htgt : ∀ u, ∀ v ∈ adj.getD u [], v ∈ ids)
    (fuel : ℕ) (s0 : KahnState)
    (hinv0 : KahnInv adj indeg0 ids seeds (s0, [])) :
    (∀ v, indeg0.getD v 0 = 0 → (kahnLoop adj fuel s0).levels.get v = seeds.get v) ∧
    (∀ v, (kahnLoop adj fuel s0).indeg.getD v 0 = 0 → 0 < indeg0.getD v 0 →
      ((kahnLoop adj fuel s0).levels.get v).isSome = true) ∧
    (∀ u v, v ∈ adj.getD u [] → u ∈ ids →
      (kahnLoop adj fuel s0).indeg.getD v 0 = 0 →
      ∃ lu lv, (kahnLoop adj fuel s0).levels.get u = some lu ∧
        (kahnLoop adj fuel s0).levels.get v = some lv ∧ lu < lv) := by
  have hfin := kahnLoopG_inv adj indeg0 ids seeds hids hcount htgt fuel (s0, []) hinv0
  have hfst := kahnLoopG_fst adj fuel s0 []
  obtain ⟨inv1, inv2, inv3, inv4, inv5, inv6, inv7⟩ := hfin
  rw [hfst] at inv1 inv2 inv3 inv4 inv5 inv6 inv7
  refine ⟨inv7, ?_, ?_⟩
  · intro v hfin0 hpos0
    have h3 := inv3 v
    have hpos : 0 < adjInto adj (kahnLoopG adj fuel (s0, [])).2 v := by omega
    obtain ⟨u, hu, hmem⟩ := adjInto_pos_exists adj _ v hpos
    obtain ⟨lu, lv, hLu, hLv, _⟩ := inv5 u hu v hmem
    rw [hLv]
    rfl
  · intro u v hmem huids hfin0
    have hPf_nodup : (kahnLoopG adj fuel (s0, [])).2.Nodup :=
      (List.nodup_append.mp inv1).1
    have hPf_sub : ∀ x ∈ (kahnLoopG adj fuel (s0, [])).2, x ∈ ids :=
      fun x hx => inv2 x (List.mem_append.mpr (Or.inl hx))
    have huproc : u ∈ (kahnLoopG adj fuel (s0, [])).2 := by
      by_contra hnp
      have h3 := inv3 v
      have hcnt : 0 < (adj.getD u []).count v := List.count_pos_iff.mpr hmem
      have hone2 : adjInto adj [u] v = ((adj.getD u []).count v : ℤ) := by
        unfold adjInto
        simp
      have hle := adjInto_le_of_subset adj ((kahnLoopG adj fuel (s0, [])).2 ++ [u]) ids v
        (List.nodup_append.mpr ⟨hPf_nodup, List.nodup_singleton u, by
          intro a ha hb
          rw [List.mem_singleton] at hb
          subst hb
          exact hnp ha⟩)
        (by
          intro x hx
          rcases List.mem_append.mp hx with hxp | hxu
          · exact hPf_sub x hxp
          · rw [List.mem_singleton] at hxu
            subst hxu
            exact huids)
      rw [adjInto_append, hone2] at hle
      have hcv := hcount v
      omega
    exact inv5 u huproc v hmem

theorem kahnPhase_initial_inv (items : List OrganizeItem) (edges : List OrganizeEdge)
    (hids : (items.map OrganizeItem.id).Nodup) :
    KahnInv (buildGraph items edges).1 (buildGraph items edges).2
      (items.map OrganizeItem.id)
      (seedInit (buildGraph items edges).2 (pySort itemLeXY items)).1
      (KahnState.mk (seedInit (buildGraph items edges).2 (pySort itemLeXY items)).1
        (buildGraph items edges).2
        (seedInit (buildGraph items edges).2 (pySort itemLeXY items)).2, []) := by
  have hq0 := seedInit_queue (buildGraph items edges).2 (pySort itemLeXY items)
  have hsortnodup : ((pySort itemLeXY items).map OrganizeItem.id).Nodup :=
    (List.Perm.nodup_iff ((perm_pySort itemLeXY items).map OrganizeItem.id)).mpr hids
  have hfilter_sub : List.Sublist
      (((pySort itemLeXY items).filter
        (fun it => decide ((buildGraph items edges).2.getD it.id 0 = 0))).map OrganizeItem.id)
      ((pySort itemLeXY items).map OrganizeItem.id) :=
    (List.filter_sublist _).map OrganizeItem.id
  refine ⟨?_, ?_, ?_, ?_, ?_, ?_, ?_⟩
  · show (([] : List String) ++
      (seedInit (buildGraph items edges).2 (pySort itemLeXY items)).2).Nodup
    rw [List.nil_append, hq0]
    exact hsortnodup.sublist hfilter_sub
  · intro x hx
    rw [List.nil_append, hq0] at hx
    rcases List.mem_map.mp hx with ⟨it, hitf, rfl⟩
    have hit : it ∈ pySort itemLeXY items := List.mem_of_mem_filter hitf
    exact List.mem_map.mpr ⟨it, (mem_pySort itemLeXY it items).mp hit, rfl⟩
  · intro v
    have h0 : adjInto (buildGraph items edges).1 [] v = 0 := rfl
    show (buildGraph items edges).2.getD v 0 = (buildGraph items edges).2.getD v 0 - _
    rw [h0]
    ring
  · intro v hv
    rw [List.nil_append, hq0] at hv
    rcases List.mem_map.mp hv with ⟨it, hitf, rfl⟩
    have hcond := List.of_mem_filter hitf
    exact of_decide_eq_true hcond
  · intro u hu
    exact absurd hu (List.not_mem_nil u)
  · intro v hv
    rw [List.nil_append, hq0] at hv
    show ((seedInit (buildGraph items edges).2 (pySort itemLeXY items)).1.get v).isSome = true
    rw [seedInit_get2, if_pos hv]
    rfl
  · intro v hv0
    rfl

theorem kahnPhase_spec (items : List OrganizeItem) (edges : List OrganizeEdge)
    (hids : (items.map OrganizeItem.id).Nodup)
    (hzero : ∀ it ∈ items, (kahnPhase items edges).indeg.getD it.id 0 = 0) :
    (∀ it ∈ items, ((kahnPhase items edges).levels.get it.id).isSome = true) ∧
    (∀ it ∈ items, (buildGraph items edges).2.getD it.id 0 = 0 →
      (kahnPhase items edges).levels.get it.id = some 0) ∧
    (∀ e ∈ edges, e.from_id ∈ items.map OrganizeItem.id →
      e.to_id ∈ items.map OrganizeItem.id →
      ∃ lu lv, (kahnPhase items edges).levels.get e.from_id = some lu ∧
        (kahnPhase items edges).levels.get e.to_id = some lv ∧ lu < lv) := by
  obtain ⟨ha, hb, hc, hd⟩ := buildGraph_inv items edges hids
  have hKeq : kahnPhase items edges = kahnLoop (buildGraph items edges).1
      (items.length + edges.length + 1)
      (KahnState.mk (seedInit (buildGraph items edges).2 (pySort itemLeXY items)).1
        (buildGraph items edges).2
        (seedInit (buildGraph items edges).2 (pySort itemLeXY items)).2) := rfl
  obtain ⟨f1, f2, f3⟩ := kahnLoop_final (buildGraph items edges).1 (buildGraph items edges).2
    (items.map OrganizeItem.id)
    (seedInit (buildGraph items edges).2 (pySort itemLeXY items)).1
    hids hd hc (items.length + edges.length + 1) _
    (kahnPhase_initial_inv items edges hids)
  rw [← hKeq] at f1 f2 f3
  have hseed : ∀ it ∈ items, (buildGraph items edges).2.getD it.id 0 = 0 →
      (seedInit (buildGraph items edges).2 (pySort itemLeXY items)).1.get it.id
        = some 0 := by
    intro it hit hz
    rw [seedInit_get2, if_pos]
    exact List.mem_map.mpr ⟨it, List.mem_filter.mpr
      ⟨(mem_pySort itemLeXY it items).mpr hit, by simp [hz]⟩, rfl⟩
  have hlevel0 : ∀ it ∈ items, (buildGraph items edges).2.getD it.id 0 = 0 →
      (kahnPhase items edges).levels.get it.id = some 0 := by
    intro it hit hz
    rw [f1 it.id hz]
    exact hseed it hit hz
  refine ⟨?_, hlevel0, ?_⟩
  · intro it hit
    by_cases hz : (buildGraph items edges).2.getD it.id 0 = 0
    · rw [hlevel0 it hit hz]
      rfl
    · have hnn : 0 ≤ (buildGraph items edges).2.getD it.id 0 := by
        rw [hd it.id]
        exact adjInto_nonneg _ _ _
      exact f2 it.id (hzero it hit) (by omega)
  · intro e he hf ht
    have hadj := buildGraph_edge_mem items edges hids e he hf ht
    obtain ⟨itt, hitt, hide⟩ := List.mem_map.mp ht
    have hzz := hzero itt hitt
    rw [hide] at hzz
    exact f3 e.from_id e.to_id hadj hf hzz

theorem enum_swap_get (xs : List ℕ) (n : ℕ) (x : ℕ) (hx : x ∈ xs) :
    ∃ i, PyDict.get ((xs.enumFrom n).map (fun p => (p.2, p.1))) x = some i ∧
      n ≤ i ∧ xs.get? (i - n) = some x := by
  induction xs generalizing n with
  | nil => cases hx
  | cons a rest ih =>
    by_cases hxa : x = a
    · subst hxa
      refine ⟨n, ?_, le_refl n, by simp⟩
      show PyDict.get ((x, n) :: (rest.enumFrom (n + 1)).map (fun p => (p.2, p.1))) x
        = some n
      unfold PyDict.get
      rw [List.find?_cons_of_pos _ (by simp)]
      rfl
    · have hxr : x ∈ rest := by
        rcases List.mem_cons.mp hx with h | h
        · exact absurd h hxa
        · exact h
      obtain ⟨i, hi, hni, hgot⟩ := ih (n + 1) hxr
      refine ⟨i, ?_, by omega, ?_⟩
      · show PyDict.get ((a, n) :: (rest.enumFrom (n + 1)).map (fun p => (p.2, p.1))) x
          = some i
        unfold PyDict.get at hi ⊢
        rw [List.find?_cons_of_neg _ (by simp [Ne.symm hxa])]
        exact hi
      · have hsub : i - n = (i - (n + 1)) + 1 := by omega
        rw [hsub]
        simpa using hgot

theorem enum_swap_get0 (xs : List ℕ) (x : ℕ) (hx : x ∈ xs) :
    ∃ i, PyDict.get ((xs.enum).map (fun p => (p.2, p.1))) x = some i ∧
      xs.get? i = some x := by
  obtain ⟨i, hi, hni, hg⟩ := enum_swap_get xs 0 x hx
  rw [Nat.sub_zero] at hg
  exact ⟨i, hi, hg⟩

theorem remap_strict_mono (xs : List ℕ) (hnod : xs.Nodup)
    (hsorted : xs.Pairwise (fun a b => natLe a b = true))
    (a b : ℕ) (ha : a ∈ xs) (hb : b ∈ xs) (hab : a < b) :
    ∃ i j, PyDict.get ((xs.enum).map (fun p => (p.2, p.1))) a = some i ∧
      PyDict.get ((xs.enum).map (fun p => (p.2, p.1))) b = some j ∧ i < j := by
  obtain ⟨i, hi, hgi⟩ := enum_swap_get0 xs a ha
  obtain ⟨j, hj, hgj⟩ := enum_swap_get0 xs b hb
  refine ⟨i, j, hi, hj, ?_⟩
  by_contra hij
  push_neg at hij
  rcases eq_or_lt_of_le hij with heq | hlt
  · rw [← heq] at hgi
    rw [hgi] at hgj
    have hab2 : a = b := Option.some.inj hgj
    omega
  · obtain ⟨hjlen, hgetj⟩ := List.get?_eq_some.mp hgj
    obtain ⟨hilen, hgeti⟩ := List.get?_eq_some.mp hgi
    have hR := List.pairwise_iff_get.mp hsorted ⟨j, hjlen⟩ ⟨i, hilen⟩ hlt
    rw [hgetj, hgeti] at hR
    unfold natLe at hR
    have hba : b ≤ a := of_decide_eq_true hR
    omega

theorem remap_zero (xs : List ℕ) (hsorted : xs.Pairwise (fun a b => natLe a b = true))
    (h0 : (0 : ℕ) ∈ xs) :
    PyDict.get ((xs.enum).map (fun p => (p.2, p.1))) 0 = some 0 := by
  cases xs with
  | nil => cases h0
  | cons a rest =>
    have ha : a = 0 := by
      rcases List.mem_cons.mp h0 with h | h
      · omega
      · have h2 := (List.pairwise_cons.mp hsorted).1 0 h
        unfold natLe at h2
        have h3 := of_decide_eq_true h2
        omega
    subst ha
    show PyDict.get ((0, 0) :: (rest.enumFrom 1).map (fun p => (p.2, p.1))) 0 = some 0
    unfold PyDict.get
    rw [List.find?_cons_of_pos _ (by simp)]
    rfl

/-- C4 (amended): when the surviving graph is acyclic — witnessed by the
Kahn phase driving every item's indegree to zero — and the grid fallback is
not taken, `compute_organized_layout` assigns every surviving edge strictly
increasing effective levels, and every item of in-degree zero lands at
level 0.  (On a cycle, as the recorded counterexample shows, the
cycle-resolution rule fabricates levels that violate the order.) -/
theorem placer_level_order_acyclic (items : List OrganizeItem) (edges : List OrganizeEdge)
    (opts : OrganizeOptions)
    (hids : (items.map OrganizeItem.id).Nodup)
    (hzero : ∀ it ∈ items, (kahnPhase items edges).indeg.getD it.id 0 = 0)
    (hnf : ¬(edges.length = 0 ∧ 1 < items.length)) :
    (∀ e ∈ edges, e.from_id ∈ items.map OrganizeItem.id →
      e.to_id ∈ items.map OrganizeItem.id →
      ∃ lu lv, (computeEffectiveLevels items edges opts).get e.from_id = some lu ∧
        (computeEffectiveLevels items edges opts).get e.to_id = some lv ∧ lu < lv) ∧
    (∀ it ∈ items, (buildGraph items edges).2.getD it.id 0 = 0 →
      (computeEffectiveLevels items edges opts).get it.id = some 0) := by
  obtain ⟨hlev, hzero0, hedge⟩ := kahnPhase_spec items edges hids hzero
  have hres : resolveCycles items edges (kahnPhase items edges).levels
      = (kahnPhase items edges).levels :=
    resolveCycles_of_all_levelled items edges _ hlev
  have htot : ∀ x y : ℕ, natLe x y = false → natLe y x = true := by
    intro x y h
    unfold natLe at h ⊢
    simp at h ⊢
    omega
  have htrans : ∀ x y z : ℕ, natLe x y = true → natLe y z = true → natLe x z = true := by
    intro x y z h1 h2
    unfold natLe at h1 h2 ⊢
    simp at h1 h2 ⊢
    omega
  have hxs_nodup : (pySort natLe (kahnPhase items edges).levels.valuesOf.dedup).Nodup :=
    (List.Perm.nodup_iff (perm_pySort natLe _)).mpr (List.nodup_dedup _)
  have hxs_sorted := pairwise_pySort natLe htot htrans
    (kahnPhase items edges).levels.valuesOf.dedup
  have hmemxs : ∀ l k, (kahnPhase items edges).levels.get k = some l →
      l ∈ pySort natLe (kahnPhase items edges).levels.valuesOf.dedup := by
    intro l k hk
    rw [mem_pySort]
    exact List.mem_dedup.mpr (PyDict.get_mem_valuesOf _ k l hk)
  have hnget : ∀ k l, (kahnPhase items edges).levels.get k = some l →
      ∃ i, (normalizeLevels (kahnPhase items edges).levels).get k = some i ∧
        PyDict.get (((pySort natLe
            (kahnPhase items edges).levels.valuesOf.dedup).enum).map
          (fun p => (p.2, p.1))) l = some i := by
    intro k l hk
    obtain ⟨i, hi, _⟩ := enum_swap_get0 _ l (hmemxs l k hk)
    refine ⟨i, ?_, hi⟩
    have hN : (normalizeLevels (kahnPhase items edges).levels).get k
        = ((kahnPhase items edges).levels.get k).map
          (fun v => (levelRemap (kahnPhase items edges).levels).getD v v) := by
      unfold normalizeLevels
      exact PyDict.get_map_values (kahnPhase items edges).levels
        (fun v => (levelRemap (kahnPhase items edges).levels).getD v v) k
    rw [hN, hk]
    show some ((levelRemap (kahnPhase items edges).levels).getD l l) = some i
    unfold levelRemap PyDict.getD
    rw [hi]
    rfl
  have hEB : ∀ k i, (normalizeLevels (kahnPhase items edges).levels).get k = some i →
      (computeEffectiveLevels items edges opts).get k = some i := by
    intro k i hk
    unfold computeEffectiveLevels
    rw [if_neg hnf]
    unfold effectiveBeforeFallback
    rw [hres]
    rw [if_neg (by rw [PyDict.isEmpty_false_of_get _ k i hk]; simp)]
    exact hk
  constructor
  · intro e he hf ht
    obtain ⟨lu, lv, hLu, hLv, hlt⟩ := hedge e he hf ht
    obtain ⟨i1, hN1, hR1⟩ := hnget e.from_id lu hLu
    obtain ⟨i2, hN2, hR2⟩ := hnget e.to_id lv hLv
    obtain ⟨i1b, i2b, hR1b, hR2b, hltb⟩ := remap_strict_mono _ hxs_nodup hxs_sorted
      lu lv (hmemxs lu e.from_id hLu) (hmemxs lv e.to_id hLv) hlt
    rw [hR1] at hR1b
    rw [hR2] at hR2b
    have h1 : i1 = i1b := Option.some.inj hR1b
    have h2 : i2 = i2b := Option.some.inj hR2b
    exact ⟨i1, i2, hEB _ _ hN1, hEB _ _ hN2, by omega⟩
  · intro it hit hz
    have hL0 := hzero0 it hit hz
    obtain ⟨i, hN, hR⟩ := hnget it.id 0 hL0
    have h00 := remap_zero _ hxs_sorted (hmemxs 0 it.id hL0)
    rw [hR] at h00
    have hi0 : i = 0 := Option.some.inj h00
    subst hi0
    exact hEB _ _ hN

/-- Witness for the amended C4 theorem: on the 2-chain `a → b` every
hypothesis holds concretely, the edge gets strictly increasing levels and
the source item sits at level 0. -/
theorem placer_level_order_acyclic_witness :
    ((chainItems.map OrganizeItem.id).Nodup ∧
      (∀ it ∈ chainItems, (kahnPhase chainItems chainEdges).indeg.getD it.id 0 = 0) ∧
      ¬(chainEdges.length = 0 ∧ 1 < chainItems.length)) ∧
    ((∀ e ∈ chainEdges, e.from_id ∈ chainItems.map OrganizeItem.id →
      e.to_id ∈ chainItems.map OrganizeItem.id →
      ∃ lu lv, (computeEffectiveLevels chainItems chainEdges
          defaultOrganizeOptions).get e.from_id = some lu ∧
        (computeEffectiveLevels chainItems chainEdges
          defaultOrganizeOptions).get e.to_id = some lv ∧ lu < lv) ∧
    (∀ it ∈ chainItems, (buildGraph chainItems chainEdges).2.getD it.id 0 = 0 →
      (computeEffectiveLevels chainItems chainEdges
        defaultOrganizeOptions).get it.id = some 0)) :=
  ⟨⟨by with_unfolding_all decide, by with_unfolding_all decide,
    by with_unfolding_all decide⟩,
   placer_level_order_acyclic chainItems chainEdges defaultOrganizeOptions
     (by with_unfolding_all decide) (by with_unfolding_all decide)
     (by with_unfolding_all decide)⟩
